import Mathlib

/-!
Verification of the batch branch-protection orchestration engine
(khulnasoft/github-branch-protection).

The development shallowly embeds the relevant JavaScript source:

* the log/report sanitizer `sanitizeErrorForLogging` (regex replacement of
  GitHub token and bearer-credential patterns) as character-list scanners;
* the retry wrapper `withExponentialBackoff` as a fuel-indexed recursion
  over a per-invocation result function, recording invocation times;
* the branch-protection manager (`_getBranchProtection`,
  `simulateRemovingChecks`, `removeChecksFromBranchProtection`,
  `removeKhulnasoftChecks`);
* the per-item processor `processRepository`, the batch loop
  `updateBranchProtection`, and the report assembly of `run`.

Concurrency inside one batch is modelled by an explicit completion order
(a permutation of the batch positions): report rows are appended in
completion order, exactly as the shared `reportData.push` behaves in the
source.
-/

/-! ### Character classes used by the sanitizer regexes -/

/-- Character class `[a-zA-Z0-9]` of the token regexes. -/


def isAlnum (c : Char) : Bool :=
  (('a' ≤ c) && (c ≤ 'z')) || (('A' ≤ c) && (c ≤ 'Z')) || (('0' ≤ c) && (c ≤ '9'))

/-- Character class `[a-zA-Z0-9._-]` of the bearer/authorization regexes. -/
def isTokChar (c : Char) : Bool :=
  isAlnum c || c == '.' || c == '_' || c == '-'

/-- Literal `ghp_` opening the classic personal-access-token regex. -/
def ghpLit : List Char := ['g', 'h', 'p', '_']

/-- The tail `hp_` of `ghpLit`, used when drilling match attempts char by char. -/
def hpuLit : List Char := ['h', 'p', '_']

/-- Literal `github_pat_` opening the fine-grained token regex. -/
def patLit : List Char :=
  ['g', 'i', 't', 'h', 'u', 'b', '_', 'p', 'a', 't', '_']

/-- Literal underscore separating the two alphanumeric runs of `github_pat_` tokens. -/
def underscoreLit : List Char := ['_']

/-- Literal `Bearer ` opening the bearer-credential regex. -/
def bearerLit : List Char := ['B', 'e', 'a', 'r', 'e', 'r', ' ']

/-- The tail `earer ` of `bearerLit`. -/
def earLit : List Char := ['e', 'a', 'r', 'e', 'r', ' ']

/-- Literal `Authorization: ` opening the authorization-header regex. -/
def authLit : List Char :=
  ['A', 'u', 't', 'h', 'o', 'r', 'i', 'z', 'a', 't', 'i', 'o', 'n', ':', ' ']

/-- Replacement text `[REDACTED_TOKEN]` for both token regexes. -/
def redactedTokenChars : List Char :=
  ['[', 'R', 'E', 'D', 'A', 'C', 'T', 'E', 'D', '_', 'T', 'O', 'K', 'E', 'N', ']']

/-- Replacement text `Bearer [REDACTED]` for the bearer regex. -/
def bearerRepl : List Char :=
  ['B', 'e', 'a', 'r', 'e', 'r', ' ', '[', 'R', 'E', 'D', 'A', 'C', 'T', 'E', 'D', ']']

/-- The 16 characters of `bearerRepl` after its leading `B`. -/
def bearerReplTail : List Char :=
  ['e', 'a', 'r', 'e', 'r', ' ', '[', 'R', 'E', 'D', 'A', 'C', 'T', 'E', 'D', ']']

/-- Replacement text `Authorization: [REDACTED]` for the authorization regex. -/
def authRepl : List Char :=
  ['A', 'u', 't', 'h', 'o', 'r', 'i', 'z', 'a', 't', 'i', 'o', 'n', ':', ' ',
   '[', 'R', 'E', 'D', 'A', 'C', 'T', 'E', 'D', ']']

/-! ### Regex matching at the head of a character list -/

/-- Consume a literal from the head of a list, returning the remainder. -/
def dropLit : List Char → List Char → Option (List Char)
  | [], s => some s
  | _ :: _, [] => none
  | a :: as, b :: bs => if a == b then dropLit as bs else none

/-- Consume exactly `n` characters satisfying `p`, returning the remainder
(the `{n}` regex quantifier). -/
def dropCount (p : Char → Bool) : Nat → List Char → Option (List Char)
  | 0, s => some s
  | _ + 1, [] => none
  | n + 1, c :: t => if p c then dropCount p n t else none

/-- Consume the maximal run of characters satisfying `p` (the greedy `+`/`*`
regex quantifiers). -/
def dropRun (p : Char → Bool) : List Char → List Char
  | [] => []
  | c :: t => if p c then dropRun p t else c :: t

/-- Head match for `/ghp_[a-zA-Z0-9]{36}/`. -/
def ghpMatch (s : List Char) : Option (List Char) :=
  (dropLit ghpLit s).bind (dropCount isAlnum 36)

/-- Head match for `/github_pat_[a-zA-Z0-9]{22}_[a-zA-Z0-9]{59}/`. -/
def patMatch (s : List Char) : Option (List Char) :=
  ((((dropLit patLit s).bind (dropCount isAlnum 22)).bind
      (dropLit underscoreLit)).bind (dropCount isAlnum 59))

/-- Head match for `/Bearer [a-zA-Z0-9._-]+/` (greedy). -/
def bearerMatch (s : List Char) : Option (List Char) :=
  match dropLit bearerLit s with
  | none => none
  | some [] => none
  | some (c :: t) => if isTokChar c then some (dropRun isTokChar t) else none

/-- Head match for `/Authorization: [a-zA-Z0-9._-]+/` (greedy). -/
def authMatch (s : List Char) : Option (List Char) :=
  match dropLit authLit s with
  | none => none
  | some [] => none
  | some (c :: t) => if isTokChar c then some (dropRun isTokChar t) else none

/-! ### Global leftmost replacement (the semantics of `String.replace` with a
`g`-flagged regex): scan left to right, replacing each leftmost match. -/

/-- Fuel-indexed scanner; `fuel` at least the length of the input makes it
total. At each position it tries the matcher; on a match it emits the
replacement and continues after the matched text, otherwise it keeps the
character and moves one position right. -/
def replAux (m : List Char → Option (List Char)) (repl : List Char) :
    Nat → List Char → List Char
  | 0, s => s
  | _ + 1, [] => []
  | fuel + 1, c :: t =>
    match m (c :: t) with
    | some rem => repl ++ replAux m repl fuel rem
    | none => c :: replAux m repl fuel t

/-- Global leftmost replacement of every match of `m` by `repl`. -/
def replaceAll (m : List Char → Option (List Char)) (repl : List Char)
    (s : List Char) : List Char :=
  replAux m repl s.length s

/-- A matcher consumes at least one character whenever it matches. -/
def Consuming (m : List Char → Option (List Char)) : Prop :=
  ∀ u r, m u = some r → r.length < u.length

/-! ### Occurrence of a pattern anywhere in a list -/

/-- `hasMatch m s = true` exactly when the pattern recognised by `m` occurs at
some position of `s`. -/
def hasMatch (m : List Char → Option (List Char)) : List Char → Bool
  | [] => (m []).isSome
  | c :: t => (m (c :: t)).isSome || hasMatch m t

/-! ### Maximal runs of a character class, used to transfer the `{36}`
quantifier between the scanner output and its input -/

/-- Length of the maximal prefix of characters satisfying `p`. -/
def runLen (p : Char → Bool) : List Char → Nat
  | [] => 0
  | c :: t => if p c then runLen p t + 1 else 0

/-! ### The four sanitizer passes, in source order -/

/-- Pass 1: `.replace(/ghp_[a-zA-Z0-9]{36}/g, REDACTED_TOKEN)`. -/
def ghpReplace (s : List Char) : List Char :=
  replaceAll ghpMatch redactedTokenChars s

/-- Pass 2: `.replace(/github_pat_[a-zA-Z0-9]{22}_[a-zA-Z0-9]{59}/g, REDACTED_TOKEN)`. -/
def patReplace (s : List Char) : List Char :=
  replaceAll patMatch redactedTokenChars s

/-- Pass 3: `.replace(/Bearer [a-zA-Z0-9._-]+/g, Bearer REDACTED)`. -/
def bearerReplace (s : List Char) : List Char :=
  replaceAll bearerMatch bearerRepl s

/-- Pass 4: `.replace(/Authorization: [a-zA-Z0-9._-]+/g, Authorization REDACTED)`. -/
def authReplace (s : List Char) : List Char :=
  replaceAll authMatch authRepl s

/-- The full message sanitizer of `sanitizeErrorForLogging`: the four regex
replacements chained in source order. -/
def sanitizeChars (s : List Char) : List Char :=
  authReplace (bearerReplace (patReplace (ghpReplace s)))

/-! ### Token shapes and extension of a head match to the right -/

/-- `t` is exactly a classic GitHub personal-access token: `ghp_` followed by
36 alphanumerics. -/
def isGhpToken (t : List Char) : Bool :=
  match ghpMatch t with
  | some [] => true
  | _ => false

/-- `t` is exactly a bearer credential: `Bearer ` followed by a non-empty run
of credential characters. -/
def isBearerCred (t : List Char) : Bool :=
  match dropLit bearerLit t with
  | none => false
  | some r => !r.isEmpty && r.all isTokChar

/-- A concrete classic personal-access token, for exercising the sanitizer. -/
def ghpTokenExample : List Char :=
  'g' :: 'h' :: 'p' :: '_' :: List.replicate 36 'a'

/-- A concrete error message containing `ghpTokenExample`. -/
def msgExample : List Char :=
  ['o', 'o', 'p', 's', ':', ' '] ++ ghpTokenExample ++ [' ', 'd', 'e', 'n', 'i', 'e', 'd']

/-! ### Errors of the GitHub API, as inspected by the source -/

/-- Occurrence of a literal substring anywhere in a character list
(JavaScript `String.prototype.includes`). -/
def containsLit (pat : List Char) : List Char → Bool
  | [] => (dropLit pat []).isSome
  | c :: t => (dropLit pat (c :: t)).isSome || containsLit pat t

/-- The characters of `rate limit`, matched by `withExponentialBackoff`
against 403 error messages. -/
def rateLimitChars : List Char :=
  ['r', 'a', 't', 'e', ' ', 'l', 'i', 'm', 'i', 't']

/-- The fields of an error object that the source inspects: `name`, `message`,
`status`, `code`, and the `x-ratelimit-reset` response header (epoch seconds)
when present. Absent JavaScript properties are `none`. -/
structure ApiError where
  name : Option String
  message : Option String
  status : Option Nat
  code : Option String
  ratelimitReset : Option Int
deriving DecidableEq

instance : Inhabited ApiError := ⟨⟨none, none, none, none, none⟩⟩

deriving instance DecidableEq for Except

/-- The `message` characters of an error, empty when the property is absent
(`error.message?.includes` short-circuits on `undefined`). -/
def errMessageChars (e : ApiError) : List Char :=
  (e.message.getD "").data

/-! ### The retry wrapper `withExponentialBackoff` -/

/-- `MAX_RETRIES` of the source. -/
def MAX_RETRIES : Nat := 5

/-- `INITIAL_BACKOFF_DELAY` of the source, in milliseconds. -/
def INITIAL_BACKOFF_DELAY : Int := 1000

/-- The wait (in ms) computed by the catch block of `withExponentialBackoff`
for one failure, or `none` when the error is not retryable and is rethrown:
a rate-limit reset header yields `(reset*1000 - now) + 1000`, falling back to
60000 when non-positive; a 403 whose message mentions `rate limit`, or a
502/503/504, yields `initialDelay * 2 ^ retries`. -/
def classifyWait (now : Int) (initialDelay : Int) (retries : Nat) (e : ApiError) :
    Option Int :=
  match e.ratelimitReset with
  | some reset =>
    let waitTime := reset * 1000 - now + 1000
    some (if waitTime > 0 then waitTime else 60000)
  | none =>
    if e.status == some 403 && containsLit rateLimitChars (errMessageChars e) then
      some (initialDelay * 2 ^ retries)
    else if e.status == some 502 || e.status == some 503 || e.status == some 504 then
      some (initialDelay * 2 ^ retries)
    else none

/-- An error is retryable exactly when the catch block computes a wait for it. -/
def retryable (e : ApiError) : Bool :=
  e.ratelimitReset.isSome ||
    (e.status == some 403 && containsLit rateLimitChars (errMessageChars e)) ||
    (e.status == some 502 || e.status == some 503 || e.status == some 504)

/-- The loop of `withExponentialBackoff`, driven by the invocation-indexed
result function `fn` (invocation `i` is the `i`-th call of the operation).
The fuel equals `maxRetries + 1 - retries` at every reachable call, so the
fuel-exhausted branch is never taken. The returned list records the logical
time of every invocation; `now` advances by each computed wait. -/
def backoffAux (fn : Nat → Except ApiError α) (maxRetries : Nat)
    (initialDelay : Int) : Nat → Nat → Int → Except ApiError α × List Int
  | 0, _, _ => (Except.error default, [])
  | fuel + 1, retries, now =>
    match fn retries with
    | Except.ok v => (Except.ok v, [now])
    | Except.error e =>
      match classifyWait now initialDelay retries e with
      | none => (Except.error e, [now])
      | some w =>
        if retries + 1 > maxRetries then
          (Except.error e, [now])
        else
          let rest := backoffAux fn maxRetries initialDelay fuel (retries + 1) (now + w)
          (rest.1, now :: rest.2)

/-- `withExponentialBackoff(fn, maxRetries, initialDelay)` started at logical
time `now`: the final result together with the invocation times. -/
def withExponentialBackoffRun (fn : Nat → Except ApiError α) (maxRetries : Nat)
    (initialDelay : Int) (now : Int) : Except ApiError α × List Int :=
  backoffAux fn maxRetries initialDelay (maxRetries + 1) 0 now

/-- A transient 502 error. -/
def e502 : ApiError :=
  { name := none, message := none, status := some 502, code := none,
    ratelimitReset := none }

/-- An operation failing once with a 502, then succeeding. -/
def fnTransient : Nat → Except ApiError Nat :=
  fun i => if i = 0 then Except.error e502 else Except.ok 42

/-! ### Rate-limit waits (claim C4) -/

/-- A rate-limited error whose reset header (epoch seconds 4) lies in the past
relative to logical time 10000 ms. -/
def staleResetErr : ApiError :=
  { name := none, message := none, status := some 403, code := none,
    ratelimitReset := some 4 }

/-- A rate-limited error resetting at epoch second 5 (5000 ms). -/
def resetFiveErr : ApiError :=
  { name := none, message := none, status := some 403, code := none,
    ratelimitReset := some 5 }

/-- An operation that always fails rate-limited with reset at 5000 ms. -/
def fnRateLimited : Nat → Except ApiError Nat :=
  fun _ => Except.error resetFiveErr

/-! ### Branch-protection data model -/

/-- One required status check (`{ context: ... }`). -/
structure Check where
  context : String
deriving DecidableEq

/-- The `required_status_checks` object; `checks` is `none` when the property
is absent. -/
structure StatusChecks where
  strict : Option Bool
  checks : Option (List Check)
deriving DecidableEq

/-- The branch-protection settings fields inspected by the manager. Fields
irrelevant to every claim (reviews, restrictions, force-push flags) are
passed through unchanged by the source and are omitted. -/
structure ProtectionSettings where
  required_status_checks : Option StatusChecks
  enforce_admins : Option Bool
deriving DecidableEq

/-- The empty object `{}` substituted by `removeChecksFromBranchProtection`
when the lookup yields no settings. -/
def emptySettings : ProtectionSettings :=
  { required_status_checks := none, enforce_admins := none }

/-- `KHULNASOFT_CHECKS.POLICY`. -/
def KHULNASOFT_POLICY : String := "Khulnasoft Smart Policy"

/-- `KHULNASOFT_CHECKS.INSIGHTS`. -/
def KHULNASOFT_INSIGHTS : String := "Khulnasoft Insights"

/-- The default removal set `[KHULNASOFT_CHECKS.POLICY, KHULNASOFT_CHECKS.INSIGHTS]`. -/
def defaultKhulnasoftChecks : List String := [KHULNASOFT_POLICY, KHULNASOFT_INSIGHTS]

/-- `_getBranchProtection`: the raw `repos.getBranchProtection` call either
yields settings or an error; a 404 (branch not protected) and a 403 (upgrade
required) are both caught and turned into `undefined`, every other error is
rethrown. -/
def getBranchProtectionM (api : Except ApiError ProtectionSettings) :
    Except ApiError (Option ProtectionSettings) :=
  match api with
  | Except.ok data => Except.ok (some data)
  | Except.error err =>
    if err.status == some 404 then Except.ok none
    else if err.status == some 403 then Except.ok none
    else Except.error err

/-- The object returned by `simulateRemovingChecks`: note that it carries
`error`/`message`/`original`/`simulated` only — there is no `removedChecks`,
`remainingChecks` or `modified` field. -/
structure SimResult where
  error : Option String
  message : Option String
  original : Option ProtectionSettings
  simulated : Option ProtectionSettings
deriving DecidableEq

/-- The TypeError thrown by `checksToRemove.length` when the caller passed
`checksToRemove: null` (the destructuring default `= []` applies only to
`undefined`, not to `null`). -/
def typeErrorNullLength : ApiError :=
  { name := some "TypeError",
    message := some "Cannot read properties of null (reading 'length')",
    status := none, code := none, ratelimitReset := none }

/-- `simulateRemovingChecks`, applied to the result of its internal
`_getBranchProtection` call. The `checksToRemove` argument is the property
the caller passed: `none` is JavaScript `null` (the default run, where
`CUSTOM_CHECKS || null` is `null`), on which the early no-protection and
no-checks returns still fire, but `checksToRemove.length` throws a TypeError
as soon as a non-empty check list reaches it. -/
def simulateRemovingChecks (bp : Except ApiError (Option ProtectionSettings))
    (checksToRemove : Option (List String)) : Except ApiError SimResult :=
  match bp with
  | Except.error e => Except.error e
  | Except.ok none =>
    Except.ok { error := some "No branch protection settings found",
                message := none, original := none, simulated := none }
  | Except.ok (some psd) =>
    match psd.required_status_checks with
    | none =>
      Except.ok { error := none, message := some "No status checks found to remove",
                  original := some psd, simulated := some psd }
    | some sc =>
      match sc.checks with
      | none =>
        Except.ok { error := none, message := some "No status checks found to remove",
                    original := some psd, simulated := some psd }
      | some checks =>
        if checks.length == 0 then
          Except.ok { error := none, message := some "No status checks found to remove",
                      original := some psd, simulated := some psd }
        else
          match checksToRemove with
          | none => Except.error typeErrorNullLength
          | some ctr =>
            let checksToFilter :=
              if ctr.length != 0 then ctr
              else defaultKhulnasoftChecks
            let filteredChecks :=
              checks.filter (fun c => !(checksToFilter.contains c.context))
            let simulated :=
              if filteredChecks.length != 0 then
                { psd with required_status_checks := some { sc with checks := some filteredChecks } }
              else
                { psd with required_status_checks := none }
            Except.ok { error := none,
                        message := some ("Would remove "
                          ++ toString (checks.length - filteredChecks.length)
                          ++ " of " ++ toString checks.length ++ " checks"),
                        original := some psd, simulated := some simulated }

/-- The `required_status_checks` payload computed by
`removeChecksFromBranchProtection` for the update call: `null` unless some
checks survive the filter. -/
def removeChecksPayload (psd : ProtectionSettings) (checksToRemove : List String) :
    Option StatusChecks :=
  match psd.required_status_checks with
  | none => none
  | some sc =>
    match sc.checks with
    | none => none
    | some checks =>
      if checks.length > 0 then
        let checksToFilter :=
          if checksToRemove.length != 0 then checksToRemove
          else defaultKhulnasoftChecks
        let filteredChecks :=
          checks.filter (fun c => !(checksToFilter.contains c.context))
        if filteredChecks.length != 0 then some { sc with checks := some filteredChecks }
        else none
      else none

/-- The value returned by `removeChecksFromBranchProtection`, extended with
the `required_status_checks` payload it sent to the update call (for stating
what was written remotely). -/
structure RemoveResult where
  message : String
  removedChecks : List String
  remainingChecks : List String
  sentStatusChecks : Option StatusChecks
deriving DecidableEq

/-- `removeChecksFromBranchProtection` of the manager: looks the settings up
(substituting `{}` when absent), computes the filtered payload, performs the
update call, and returns message/removedChecks/remainingChecks. A `none`
`checksToRemove` is the JavaScript `null` argument: `checksToRemove.length`
throws a TypeError inside the filter block when the check list is non-empty
(before the update call), and otherwise on the `removedChecks` line after
the update call. -/
def removeChecksFromBranchProtectionRun (bpApi : Except ApiError ProtectionSettings)
    (updateApi : Except ApiError Unit) (checksToRemove : Option (List String)) :
    Except ApiError RemoveResult :=
  match getBranchProtectionM bpApi with
  | Except.error e => Except.error e
  | Except.ok opt =>
    let psd := opt.getD emptySettings
    let payloadE : Except ApiError (Option StatusChecks) :=
      match psd.required_status_checks with
      | none => Except.ok none
      | some sc =>
        match sc.checks with
        | none => Except.ok none
        | some checks =>
          if checks.length > 0 then
            match checksToRemove with
            | none => Except.error typeErrorNullLength
            | some ctr => Except.ok (removeChecksPayload psd ctr)
          else Except.ok none
    match payloadE with
    | Except.error e => Except.error e
    | Except.ok payload =>
      match updateApi with
      | Except.error e => Except.error e
      | Except.ok _ =>
        match checksToRemove with
        | none => Except.error typeErrorNullLength
        | some ctr =>
          let removedChecks :=
            if ctr.length != 0 then ctr
            else defaultKhulnasoftChecks
          let remainingChecks :=
            match psd.required_status_checks with
            | none => []
            | some sc =>
              ((sc.checks.getD []).filter
                (fun c => !(removedChecks.contains c.context))).map (fun c => c.context)
          let checkNames :=
            if ctr.length != 0 then String.intercalate ", " ctr
            else "Khulnasoft checks"
          Except.ok { message := "Removed " ++ checkNames ++ " from branch protection",
                      removedChecks := removedChecks,
                      remainingChecks := remainingChecks,
                      sentStatusChecks := payload }

/-- Whether one call of `removeChecksFromBranchProtection` reaches the
mutating update call: the internal lookup must not throw, and with a `null`
removal list a non-empty check list throws before the update call. -/
def removeChecksReachesUpdate (bpApi : Except ApiError ProtectionSettings)
    (checksToRemove : Option (List String)) : Bool :=
  match getBranchProtectionM bpApi with
  | Except.error _ => false
  | Except.ok opt =>
    let psd := opt.getD emptySettings
    match psd.required_status_checks with
    | none => true
    | some sc =>
      match sc.checks with
      | none => true
      | some checks =>
        if checks.length > 0 then checksToRemove.isSome else true

/-- `removeKhulnasoftChecks` of `GitHubClient.js`: the payload for the fixed
Khulnasoft removal set. -/
def removeKhulnasoftChecks (settings : ProtectionSettings) : Option StatusChecks :=
  match settings.required_status_checks with
  | none => none
  | some sc =>
    match sc.checks with
    | none => none
    | some checks =>
      let filteredChecks :=
        checks.filter (fun c => !(defaultKhulnasoftChecks.contains c.context))
      if filteredChecks.length != 0 then some { sc with checks := some filteredChecks }
      else none

/-! ### Error sanitization at the report boundary -/

/-- `sanitizeErrorForLogging` applied to a message string. -/
def sanitizeMessage (s : String) : String :=
  String.mk (sanitizeChars s.data)

/-- The object built by `sanitizeErrorForLogging`: the safe properties, with
the four regex replacements applied to `message` when present. -/
structure SanitizedError where
  name : Option String
  message : Option String
  status : Option Nat
  code : Option String
deriving DecidableEq

/-- `sanitizeErrorForLogging` of the source. -/
def sanitizeErrorForLogging (e : ApiError) : SanitizedError :=
  { name := e.name, message := e.message.map sanitizeMessage,
    status := e.status, code := e.code }

/-! ### Work items, configuration, and the per-item processor -/

/-- The repository fields the processor uses. -/
structure Repo where
  name : String
  defaultBranch : String
deriving DecidableEq

/-- The deterministic remote world of one work item: what the
`getBranchProtection` API call yields for it, and what the
`updateBranchProtection` API call yields. -/
structure ItemWorld where
  repo : Repo
  bpApi : Except ApiError ProtectionSettings
  updateApi : Except ApiError Unit

/-- The run configuration derived from the command line. `customChecks` is
`CUSTOM_CHECKS = argv.checks || null`: `none` is the JavaScript `null` of the
default run (no `--checks`), while `some l` is an array — possibly empty,
since an empty array is truthy and survives the `|| null`. -/
structure Config where
  dryRun : Bool
  customChecks : Option (List String)
  maxConcurrency : Nat
  specificBranch : Option String

/-- One row of `reportData`. A `none` field is a property that the push left
undefined. -/
inductive ItemStatus where
  | skipped
  | simulated
  | updated
  | error
deriving DecidableEq

structure ReportEntry where
  repository : String
  branch : String
  status : ItemStatus
  reason : Option String
  dryRun : Option Bool
  changes : Option (List String)
  checksRemaining : Option (List String)
  error : Option String
deriving DecidableEq

/-- What `processRepository` produces for one item: the row it pushed, its
boolean return value, and whether the mutating update call was made. -/
structure ProcResult where
  entry : ReportEntry
  ok : Bool
  applyCalled : Bool
deriving DecidableEq

/-- Whether an `Except` value is a success. -/
def exceptIsOk {ε σ : Type} : Except ε σ → Bool
  | Except.ok _ => true
  | Except.error _ => false

/-- The `error` report field: `sanitizedError.message || 'Unknown error'`. -/
def errorField (e : ApiError) : String :=
  match (sanitizeErrorForLogging e).message with
  | none => "Unknown error"
  | some m => if m.isEmpty then "Unknown error" else m

/-- The row pushed by the catch block of `processRepository`. -/
def errorEntry (repoName branch : String) (e : ApiError) : ReportEntry :=
  { repository := repoName, branch := branch, status := ItemStatus.error,
    reason := none, dryRun := none, changes := none, checksRemaining := none,
    error := some (errorField e) }

/-- `processRepository`: look the protection up (through the retry wrapper);
skip when absent; in dry-run mode simulate and push a `simulated` row whose
`changes`/`checksRemaining` copy the `removedChecks`/`remainingChecks`
properties of the simulation result — properties that `simulateRemovingChecks`
never sets, hence `none`; otherwise apply the removal (through the retry
wrapper) and push an `updated` row; any escaped error — including the
TypeError raised on `checksToRemove.length` when `CUSTOM_CHECKS || null` was
`null` — is sanitized into an `error` row. -/
def processRepository (cfg : Config) (w : ItemWorld) : ProcResult :=
  let branchToUpdate := cfg.specificBranch.getD w.repo.defaultBranch
  match (withExponentialBackoffRun (fun _ => getBranchProtectionM w.bpApi)
      MAX_RETRIES INITIAL_BACKOFF_DELAY 0).1 with
  | Except.error e =>
    { entry := errorEntry w.repo.name branchToUpdate e, ok := false,
      applyCalled := false }
  | Except.ok none =>
    { entry := { repository := w.repo.name, branch := branchToUpdate,
                 status := ItemStatus.skipped,
                 reason := some "No branch protection found", dryRun := none,
                 changes := some [], checksRemaining := none, error := none },
      ok := true, applyCalled := false }
  | Except.ok (some _) =>
    let checksToRemove := cfg.customChecks
    if cfg.dryRun then
      match simulateRemovingChecks (getBranchProtectionM w.bpApi) checksToRemove with
      | Except.error e =>
        { entry := errorEntry w.repo.name branchToUpdate e, ok := false,
          applyCalled := false }
      | Except.ok _changes =>
        { entry := { repository := w.repo.name, branch := branchToUpdate,
                     status := ItemStatus.simulated, reason := none,
                     dryRun := some true,
                     changes := none, checksRemaining := none, error := none },
          ok := true, applyCalled := false }
    else
      match (withExponentialBackoffRun
          (fun _ => removeChecksFromBranchProtectionRun w.bpApi w.updateApi checksToRemove)
          MAX_RETRIES INITIAL_BACKOFF_DELAY 0).1 with
      | Except.error e =>
        { entry := errorEntry w.repo.name branchToUpdate e, ok := false,
          applyCalled := removeChecksReachesUpdate w.bpApi checksToRemove }
      | Except.ok res =>
        { entry := { repository := w.repo.name, branch := branchToUpdate,
                     status := ItemStatus.updated, reason := none, dryRun := none,
                     changes := some res.removedChecks,
                     checksRemaining := some res.remainingChecks, error := none },
          ok := true, applyCalled := true }

/-! ### The batch loop of `updateBranchProtection` -/

/-- `THROTTLE_DELAY` of the source, in milliseconds. -/
def THROTTLE_DELAY : Nat := 1000

/-- Fuel-indexed chunking: the loop `for (let i = 0; i < repos.length;
i += MAX_CONCURRENCY)` slicing `repos.slice(i, i + C)`. -/
def chunksF {σ : Type} (C : Nat) : Nat → List σ → List (List σ)
  | 0, _ => []
  | _ + 1, [] => []
  | fuel + 1, a :: t => (a :: t).take C :: chunksF C fuel (t.drop (C - 1))

/-- The contiguous batches of size `C` (last possibly smaller). -/
def chunks {σ : Type} (C : Nat) (l : List σ) : List (List σ) :=
  chunksF C l.length l

/-- The scheduling events of one run of `updateBranchProtection`: batch
launches (with the batch's repository names) and inter-batch delays. -/
inductive RunEvent where
  | batchStart (names : List String)
  | interDelay (ms : Nat)
deriving DecidableEq

/-- Fuel-indexed event trace of the batch loop: after each batch, the loop
waits `THROTTLE_DELAY * 2` exactly when `i + MAX_CONCURRENCY < repos.length`,
i.e. when more items remain past this batch. -/
def schedTraceF (C : Nat) : Nat → List ItemWorld → List RunEvent
  | 0, _ => []
  | _ + 1, [] => []
  | fuel + 1, a :: t =>
    RunEvent.batchStart (((a :: t).take C).map (fun w => w.repo.name)) ::
      (if (t.drop (C - 1)).isEmpty then schedTraceF C fuel (t.drop (C - 1))
       else RunEvent.interDelay (THROTTLE_DELAY * 2) :: schedTraceF C fuel (t.drop (C - 1)))

/-- The event trace of `updateBranchProtection` on `l`. -/
def schedTrace (C : Nat) (l : List ItemWorld) : List RunEvent :=
  schedTraceF C l.length l

/-- The fully-synchronised shape the trace must have: one launch per batch,
delays strictly between consecutive batches, none trailing. -/
def interleaveTrace : List (List String) → List RunEvent
  | [] => []
  | [b] => [RunEvent.batchStart b]
  | b :: b2 :: bs =>
    RunEvent.batchStart b :: RunEvent.interDelay (THROTTLE_DELAY * 2) ::
      interleaveTrace (b2 :: bs)

/-! ### Batch execution with an explicit per-batch completion order -/

/-- The rows of one batch in completion order: position `order[k]` of the
batch finishes `k`-th and pushes its row then. -/
def permuteBy {β : Type} (order : List Nat) (l : List β) : List β :=
  order.filterMap (fun j => l[j]?)

/-- The rows pushed while one batch runs. -/
def batchEntries (cfg : Config) (batch : List ItemWorld) (order : List Nat) :
    List ReportEntry :=
  permuteBy order (batch.map (fun w => (processRepository cfg w).entry))

/-- `results.filter(result => result).length` over one settled batch. -/
def batchSuccessCount (cfg : Config) (batch : List ItemWorld) : Nat :=
  ((batch.map (fun w => (processRepository cfg w).ok)).filter (fun r => r)).length

/-- The batch loop: accumulate the success count and the pushed rows, batch
after batch; `orders` supplies each batch's completion order (input order
when exhausted). -/
def runChunks (cfg : Config) : List (List ItemWorld) → List (List Nat) → Nat × List ReportEntry
  | [], _ => (0, [])
  | b :: bs, orders =>
    let o := orders.headD (List.range b.length)
    let rest := runChunks cfg bs orders.tail
    (batchSuccessCount cfg b + rest.1, batchEntries cfg b o ++ rest.2)

/-- `updateBranchProtection` over the item worlds, given the completion
orders: returns `updatedRepos` and the final `reportData`. -/
def updateBranchProtectionRun (cfg : Config) (orders : List (List Nat))
    (worlds : List ItemWorld) : Nat × List ReportEntry :=
  runChunks cfg (chunks cfg.maxConcurrency worlds) orders

/-- A valid completion schedule: each listed order is a permutation of the
positions of its batch. -/
def ValidOrders (orders : List (List Nat)) (bs : List (List ItemWorld)) : Prop :=
  ∀ p ∈ orders.zip bs, List.Perm p.1 (List.range p.2.length)

instance (orders : List (List Nat)) (bs : List (List ItemWorld)) :
    Decidable (ValidOrders orders bs) := by
  unfold ValidOrders
  infer_instance

/-! ### The report built by `run` -/

/-- The `summary` object of the report: note there is no `simulated` count
and `repositoriesUpdated` is the number of `true` returns of
`processRepository`. -/
structure ReportSummary where
  totalRepositories : Nat
  repositoriesUpdated : Nat
  repositoriesWithErrors : Nat
  repositoriesSkipped : Nat
deriving DecidableEq

structure BatchReport where
  dryRun : Bool
  summary : ReportSummary
  details : List ReportEntry
deriving DecidableEq

/-- Rows of a given status (`reportData.filter(r => r.status === st).length`). -/
def countStatus (st : ItemStatus) (entries : List ReportEntry) : Nat :=
  entries.countP (fun e => e.status == st)

/-- The report assembled at the end of `run`. -/
def buildReport (cfg : Config) (orders : List (List Nat))
    (worlds : List ItemWorld) : BatchReport :=
  let r := updateBranchProtectionRun cfg orders worlds
  { dryRun := cfg.dryRun,
    summary := { totalRepositories := worlds.length,
                 repositoriesUpdated := r.1,
                 repositoriesWithErrors := countStatus ItemStatus.error r.2,
                 repositoriesSkipped := countStatus ItemStatus.skipped r.2 },
    details := r.2 }

/-- Booleans classifying the trace events. -/
def isBatchEvent : RunEvent → Bool
  | RunEvent.batchStart _ => true
  | RunEvent.interDelay _ => false

def isDelayEvent : RunEvent → Bool
  | RunEvent.batchStart _ => false
  | RunEvent.interDelay _ => true

/-! ### Concrete worlds for counterexamples and witnesses -/

/-- A 404: the branch is not protected. -/
def notFoundErr : ApiError :=
  { name := none, message := none, status := some 404, code := none,
    ratelimitReset := none }

/-- A 403: permission denied / plan upgrade required. -/
def permDeniedErr : ApiError :=
  { name := none, message := none, status := some 403, code := none,
    ratelimitReset := none }

def skipWorldA : ItemWorld :=
  { repo := { name := "repo-a", defaultBranch := "main" },
    bpApi := Except.error notFoundErr, updateApi := Except.ok () }

def skipWorldB : ItemWorld :=
  { repo := { name := "repo-b", defaultBranch := "main" },
    bpApi := Except.error notFoundErr, updateApi := Except.ok () }

def skipWorldC : ItemWorld :=
  { repo := { name := "repo-c", defaultBranch := "main" },
    bpApi := Except.error notFoundErr, updateApi := Except.ok () }

def permWorld : ItemWorld :=
  { repo := { name := "repo-403", defaultBranch := "main" },
    bpApi := Except.error permDeniedErr, updateApi := Except.ok () }

def cfgApply : Config :=
  { dryRun := false, customChecks := none, maxConcurrency := 5,
    specificBranch := none }

def cfgApply2 : Config :=
  { dryRun := false, customChecks := none, maxConcurrency := 2,
    specificBranch := none }

def cfgDry : Config :=
  { dryRun := true, customChecks := none, maxConcurrency := 5,
    specificBranch := none }

/-- A dry run whose `--checks` option produced a real (empty) array, so
`CUSTOM_CHECKS || null` keeps the array and no `null` reaches
`checksToRemove.length`. -/
def cfgDryChecks : Config :=
  { dryRun := true, customChecks := some [], maxConcurrency := 5,
    specificBranch := none }

/-- A protection state with one Khulnasoft check and one other check. -/
def policyCheck : Check := { context := KHULNASOFT_POLICY }

def ciCheck : Check := { context := "CI Build" }

def psdTwoChecks : ProtectionSettings :=
  { required_status_checks := some { strict := none, checks := some [policyCheck, ciCheck] },
    enforce_admins := none }

def protWorld : ItemWorld :=
  { repo := { name := "repo-x", defaultBranch := "main" },
    bpApi := Except.ok psdTwoChecks, updateApi := Except.ok () }

/-! ### Claim C9 -/

/-- `psdTwoChecks` after removing the Khulnasoft policy check. -/
def psdOnlyCi : ProtectionSettings :=
  { required_status_checks := some { strict := none, checks := some [ciCheck] },
    enforce_admins := none }

/-! ### Claim C10 -/

/-- A protection state whose required status checks list is present but
empty. -/
def psdEmptyChecks : ProtectionSettings :=
  { required_status_checks := some { strict := none, checks := some [] },
    enforce_admins := none }

/-- A protection state whose single required check is the Khulnasoft policy
check. -/
def psdOnlyPolicy : ProtectionSettings :=
  { required_status_checks := some { strict := none, checks := some [policyCheck] },
    enforce_admins := none }

/-! ### Theorems -/

/-! ### Decomposition lemmas for the matcher building blocks -/

theorem dropLit_some_decomp : ∀ (l s r : List Char), dropLit l s = some r → s = l ++ r := by
  intro l
  induction l with
  | nil => intro s r h; simpa [dropLit] using h
  | cons a as ih =>
    intro s r h
    cases s with
    | nil => simp [dropLit] at h
    | cons b bs =>
      simp only [dropLit] at h
      by_cases hab : a == b
      · simp only [hab, if_true] at h
        have hb : a = b := by simpa using hab
        subst hb
        simpa using ih bs r h
      · simp [hab] at h

theorem dropCount_some_decomp (p : Char → Bool) :
    ∀ (n : Nat) (s r : List Char), dropCount p n s = some r →
      ∃ a, s = a ++ r ∧ a.length = n ∧ ∀ c ∈ a, p c = true := by
  intro n
  induction n with
  | zero =>
    intro s r h
    refine ⟨[], ?_, rfl, by intro c hc; simp at hc⟩
    simpa [dropCount] using h
  | succ k ih =>
    intro s r h
    cases s with
    | nil => simp [dropCount] at h
    | cons c t =>
      simp only [dropCount] at h
      by_cases hc : p c
      · simp only [hc, if_true] at h
        obtain ⟨a, ha, hlen, hall⟩ := ih t r h
        refine ⟨c :: a, by simpa using ha, by simpa using hlen, ?_⟩
        intro d hd
        rcases List.mem_cons.mp hd with h1 | h2
        · subst h1; exact hc
        · exact hall d h2
      · simp [hc] at h

theorem dropRun_decomp (p : Char → Bool) :
    ∀ s : List Char, ∃ a, s = a ++ dropRun p s ∧ ∀ c ∈ a, p c = true := by
  intro s
  induction s with
  | nil => exact ⟨[], rfl, by intro c hc; simp at hc⟩
  | cons c t ih =>
    by_cases hc : p c
    · obtain ⟨a, ha, hall⟩ := ih
      refine ⟨c :: a, ?_, ?_⟩
      · simp [dropRun, hc]; exact ha
      · intro d hd
        rcases List.mem_cons.mp hd with h1 | h2
        · subst h1; exact hc
        · exact hall d h2
    · exact ⟨[], by simp [dropRun, hc], by intro d hd; simp at hd⟩

theorem ghpMatch_decomp (s r : List Char) (h : ghpMatch s = some r) :
    ∃ a, s = ghpLit ++ a ++ r ∧ a.length = 36 ∧ ∀ c ∈ a, isAlnum c = true := by
  simp only [ghpMatch] at h
  cases hd : dropLit ghpLit s with
  | none => rw [hd] at h; simp at h
  | some r1 =>
    rw [hd, Option.some_bind] at h
    obtain ⟨a, ha, hlen, hall⟩ := dropCount_some_decomp isAlnum 36 r1 r h
    exact ⟨a, by rw [dropLit_some_decomp _ _ _ hd, ha, List.append_assoc], hlen, hall⟩

theorem patMatch_decomp (s r : List Char) (h : patMatch s = some r) :
    ∃ a, s = patLit ++ a ++ r ∧ 82 ≤ a.length := by
  simp only [patMatch] at h
  cases h1 : dropLit patLit s with
  | none => rw [h1] at h; simp at h
  | some r1 =>
    rw [h1, Option.some_bind] at h
    cases h2 : dropCount isAlnum 22 r1 with
    | none => rw [h2] at h; simp at h
    | some r2 =>
      rw [h2, Option.some_bind] at h
      cases h3 : dropLit underscoreLit r2 with
      | none => rw [h3] at h; simp at h
      | some r3 =>
        rw [h3, Option.some_bind] at h
        obtain ⟨a2, ha2, hlen2, _⟩ := dropCount_some_decomp isAlnum 22 r1 r2 h2
        have hd3 := dropLit_some_decomp _ _ _ h3
        obtain ⟨a4, ha4, hlen4, _⟩ := dropCount_some_decomp isAlnum 59 r3 r h
        refine ⟨a2 ++ underscoreLit ++ a4, ?_, ?_⟩
        · rw [dropLit_some_decomp _ _ _ h1, ha2, hd3, ha4]
          simp [List.append_assoc]
        · simp [hlen2, hlen4, underscoreLit]

theorem bearerMatch_decomp (s r : List Char) (h : bearerMatch s = some r) :
    ∃ a, s = bearerLit ++ a ++ r ∧ 1 ≤ a.length := by
  simp only [bearerMatch] at h
  cases hd : dropLit bearerLit s with
  | none => rw [hd] at h; exact absurd h (by simp)
  | some r1 =>
    rw [hd] at h
    cases r1 with
    | nil => simp at h
    | cons c t =>
      by_cases hc : isTokChar c
      · simp only [hc, if_true] at h
        obtain ⟨a, ha, -⟩ := dropRun_decomp isTokChar t
        have hr : r = dropRun isTokChar t := (Option.some.inj h).symm
        refine ⟨c :: a, ?_, by simp⟩
        rw [dropLit_some_decomp _ _ _ hd, hr]
        conv_lhs => rw [ha]
        simp [List.append_assoc]
      · simp [hc] at h

theorem authMatch_decomp (s r : List Char) (h : authMatch s = some r) :
    ∃ a, s = authLit ++ a ++ r ∧ 1 ≤ a.length := by
  simp only [authMatch] at h
  cases hd : dropLit authLit s with
  | none => rw [hd] at h; exact absurd h (by simp)
  | some r1 =>
    rw [hd] at h
    cases r1 with
    | nil => simp at h
    | cons c t =>
      by_cases hc : isTokChar c
      · simp only [hc, if_true] at h
        obtain ⟨a, ha, -⟩ := dropRun_decomp isTokChar t
        have hr : r = dropRun isTokChar t := (Option.some.inj h).symm
        refine ⟨c :: a, ?_, by simp⟩
        rw [dropLit_some_decomp _ _ _ hd, hr]
        conv_lhs => rw [ha]
        simp [List.append_assoc]
      · simp [hc] at h

theorem ghpMatch_consuming : Consuming ghpMatch := by
  intro u r h
  obtain ⟨a, hu, hlen, _⟩ := ghpMatch_decomp u r h
  subst hu
  simp [ghpLit, hlen]
  omega

theorem patMatch_consuming : Consuming patMatch := by
  intro u r h
  obtain ⟨a, hu, hlen⟩ := patMatch_decomp u r h
  subst hu
  simp [patLit]
  omega

theorem bearerMatch_consuming : Consuming bearerMatch := by
  intro u r h
  obtain ⟨a, hu, hlen⟩ := bearerMatch_decomp u r h
  subst hu
  simp [bearerLit]
  omega

theorem authMatch_consuming : Consuming authMatch := by
  intro u r h
  obtain ⟨a, hu, hlen⟩ := authMatch_decomp u r h
  subst hu
  simp [authLit]
  omega

/-! ### Unfolding equations for the scanner -/

theorem replAux_fuel_eq (m : List Char → Option (List Char)) (repl : List Char)
    (hm : Consuming m) :
    ∀ (f1 : Nat), ∀ (f2 : Nat) (s : List Char), s.length ≤ f1 → s.length ≤ f2 →
      replAux m repl f1 s = replAux m repl f2 s := by
  intro f1
  induction f1 with
  | zero =>
    intro f2 s h1 h2
    have hs : s = [] := List.eq_nil_of_length_eq_zero (Nat.le_zero.mp h1)
    subst hs
    cases f2 <;> simp [replAux]
  | succ k ih =>
    intro f2 s h1 h2
    cases s with
    | nil => cases f2 <;> simp [replAux]
    | cons c t =>
      cases f2 with
      | zero => simp at h2
      | succ k2 =>
        cases hmc : m (c :: t) with
        | some rem =>
          have hlt := hm _ _ hmc
          have hr1 : rem.length ≤ k := by
            simp only [List.length_cons] at h1 hlt
            omega
          have hr2 : rem.length ≤ k2 := by
            simp only [List.length_cons] at h2 hlt
            omega
          simp only [replAux, hmc]
          rw [ih k2 rem hr1 hr2]
        | none =>
          have ht1 : t.length ≤ k := by
            simp only [List.length_cons] at h1
            omega
          have ht2 : t.length ≤ k2 := by
            simp only [List.length_cons] at h2
            omega
          simp only [replAux, hmc]
          rw [ih k2 t ht1 ht2]

theorem replaceAll_nil (m : List Char → Option (List Char)) (repl : List Char) :
    replaceAll m repl [] = [] := rfl

theorem replaceAll_cons_match (m : List Char → Option (List Char)) (repl : List Char)
    (hm : Consuming m) (c : Char) (t rem : List Char) (h : m (c :: t) = some rem) :
    replaceAll m repl (c :: t) = repl ++ replaceAll m repl rem := by
  have hlt := hm _ _ h
  simp only [replaceAll, List.length_cons, replAux, h]
  congr 1
  exact replAux_fuel_eq m repl hm t.length rem.length rem
    (by simp only [List.length_cons] at hlt; omega) (le_refl _)

theorem replaceAll_cons_nomatch (m : List Char → Option (List Char)) (repl : List Char)
    (hm : Consuming m) (c : Char) (t : List Char) (h : m (c :: t) = none) :
    replaceAll m repl (c :: t) = c :: replaceAll m repl t := by
  simp only [replaceAll, List.length_cons, replAux, h]

theorem hasMatch_of_head (m : List Char → Option (List Char)) (s : List Char)
    (h : (m s).isSome = true) : hasMatch m s = true := by
  cases s with
  | nil => simpa [hasMatch] using h
  | cons c t => simp [hasMatch, h]

theorem hasMatch_append_right (m : List Char → Option (List Char)) :
    ∀ (a b : List Char), hasMatch m (a ++ b) = false → hasMatch m b = false := by
  intro a
  induction a with
  | nil => intro b h; simpa using h
  | cons x xs ih =>
    intro b h
    simp only [List.cons_append, hasMatch, Bool.or_eq_false_iff] at h
    exact ih b h.2

theorem hasMatch_of_infix (m : List Char → Option (List Char)) :
    ∀ (a t b : List Char), (m (t ++ b)).isSome = true →
      hasMatch m (a ++ (t ++ b)) = true := by
  intro a
  induction a with
  | nil => intro t b h; simpa using hasMatch_of_head m (t ++ b) h
  | cons x xs ih =>
    intro t b h
    have hih := ih t b h
    simp only [List.cons_append, hasMatch, List.append_eq] at hih ⊢
    rw [hih]
    simp

/-- If every match of `m` starts with the character `hc`, and the block `a`
avoids `hc`, then no match starts inside `a`. -/
theorem hasMatch_append_skip (m : List Char → Option (List Char)) (hc : Char)
    (hhead : ∀ x t, (m (x :: t)).isSome = true → x = hc) :
    ∀ (a b : List Char), (∀ x ∈ a, x ≠ hc) →
      hasMatch m (a ++ b) = hasMatch m b := by
  intro a
  induction a with
  | nil => intro b _; simp
  | cons x xs ih =>
    intro b ha
    have hx : (m (x :: (xs ++ b))).isSome = false := by
      by_contra hcon
      have hx2 : (m (x :: (xs ++ b))).isSome = true := by
        revert hcon
        cases (m (x :: (xs ++ b))).isSome <;> simp
      exact (ha x (by simp)) (hhead _ _ hx2)
    have hih := ih b (fun y hy => ha y (by simp [hy]))
    simp only [List.cons_append, hasMatch, List.append_eq] at hx hih ⊢
    rw [hx, hih]
    simp

/-! ### Head characters of the matchers -/

theorem dropLit_cons (a : Char) (as : List Char) (b : Char) (bs r : List Char)
    (h : dropLit (a :: as) (b :: bs) = some r) : a = b ∧ dropLit as bs = some r := by
  simp only [dropLit] at h
  by_cases hab : a == b
  · exact ⟨by simpa using hab, by simpa [hab] using h⟩
  · simp [hab] at h

theorem ghpMatch_head (x : Char) (t : List Char)
    (h : (ghpMatch (x :: t)).isSome = true) : x = 'g' := by
  simp only [ghpMatch] at h
  cases hd : dropLit ghpLit (x :: t) with
  | none => rw [hd] at h; simp at h
  | some r1 => exact (dropLit_cons _ _ _ _ _ hd).1.symm

theorem patMatch_head (x : Char) (t : List Char)
    (h : (patMatch (x :: t)).isSome = true) : x = 'g' := by
  simp only [patMatch] at h
  cases hd : dropLit patLit (x :: t) with
  | none => rw [hd] at h; simp at h
  | some r1 => exact (dropLit_cons _ _ _ _ _ hd).1.symm

theorem bearerMatch_head (x : Char) (t : List Char)
    (h : (bearerMatch (x :: t)).isSome = true) : x = 'B' := by
  simp only [bearerMatch] at h
  cases hd : dropLit bearerLit (x :: t) with
  | none => rw [hd] at h; simp at h
  | some r1 => exact (dropLit_cons _ _ _ _ _ hd).1.symm

theorem authMatch_head (x : Char) (t : List Char)
    (h : (authMatch (x :: t)).isSome = true) : x = 'A' := by
  simp only [authMatch] at h
  cases hd : dropLit authLit (x :: t) with
  | none => rw [hd] at h; simp at h
  | some r1 => exact (dropLit_cons _ _ _ _ _ hd).1.symm

theorem dropCount_isSome_iff (p : Char → Bool) :
    ∀ (n : Nat) (s : List Char), (dropCount p n s).isSome = true ↔ n ≤ runLen p s := by
  intro n
  induction n with
  | zero => intro s; simp [dropCount]
  | succ k ih =>
    intro s
    cases s with
    | nil => simp [dropCount, runLen]
    | cons c t =>
      by_cases hc : p c
      · simp only [dropCount, runLen, hc, if_true, ih t]
        omega
      · simp [dropCount, runLen, hc]

theorem runLen_append_stop (p : Char → Bool) :
    ∀ (a : List Char), (∃ c ∈ a, p c = false) →
      ∀ b, runLen p (a ++ b) = runLen p a := by
  intro a
  induction a with
  | nil => intro h; obtain ⟨c, hc, _⟩ := h; simp at hc
  | cons x xs ih =>
    intro h b
    by_cases hx : p x
    · obtain ⟨c, hc, hcp⟩ := h
      have hcx : c ∈ xs := by
        rcases List.mem_cons.mp hc with h1 | h2
        · subst h1; rw [hx] at hcp; simp at hcp
        · exact h2
      simp [runLen, hx, ih ⟨c, hcx, hcp⟩ b]
    · simp [runLen, hx]

/-- Generic transfer: if every replacement block contributes a constant run
length `k`, and every matched stretch of input starts with run length at
least `k`, then the scanner never increases the maximal run prefix. -/
theorem runLen_replaceAll_le (m : List Char → Option (List Char)) (repl : List Char)
    (hm : Consuming m) (p : Char → Bool) (k : Nat)
    (hconst : ∀ b, runLen p (repl ++ b) = k)
    (hmatch : ∀ u rem, m u = some rem → k ≤ runLen p u) :
    ∀ (n : Nat) (s : List Char), s.length ≤ n →
      runLen p (replaceAll m repl s) ≤ runLen p s := by
  intro n
  induction n with
  | zero =>
    intro s hs
    have : s = [] := List.eq_nil_of_length_eq_zero (Nat.le_zero.mp hs)
    subst this
    simp [replaceAll_nil]
  | succ nk ih =>
    intro s hs
    cases s with
    | nil => simp [replaceAll_nil]
    | cons c t =>
      cases hmc : m (c :: t) with
      | some rem =>
        rw [replaceAll_cons_match m repl hm c t rem hmc, hconst]
        exact hmatch _ _ hmc
      | none =>
        rw [replaceAll_cons_nomatch m repl hm c t hmc]
        have hlen : t.length ≤ nk := by
          simp only [List.length_cons] at hs
          omega
        by_cases hc : p c
        · simp only [runLen, hc, if_true]
          have := ih t hlen
          omega
        · simp [runLen, hc]

/-! ### Drilling a literal prefix through the scanner output -/

/-- If a literal none of whose characters can open a replacement block is a
prefix of the scanner output, then it is a prefix of the input and the rest
of the output is the scan of the rest of the input. -/
theorem transferLit (m : List Char → Option (List Char)) (repl : List Char)
    (hm : Consuming m) (hrepl : repl ≠ []) :
    ∀ (lit : List Char), (∀ x ∈ lit, repl.head? ≠ some x) →
      ∀ (u r : List Char), dropLit lit (replaceAll m repl u) = some r →
        ∃ v, dropLit lit u = some v ∧ replaceAll m repl v = r := by
  intro lit
  induction lit with
  | nil =>
    intro _ u r h
    exact ⟨u, rfl, by simpa [dropLit] using h⟩
  | cons x lit2 ih =>
    intro hlit u r h
    cases u with
    | nil => simp [replaceAll_nil, dropLit] at h
    | cons c t =>
      cases hmc : m (c :: t) with
      | some rem =>
        rw [replaceAll_cons_match m repl hm c t rem hmc] at h
        obtain ⟨rh, rt, hr⟩ := List.exists_cons_of_ne_nil hrepl
        rw [hr, List.cons_append] at h
        have hx := (dropLit_cons _ _ _ _ _ h).1
        exact absurd (by rw [hr, hx]; rfl) (hlit x (by simp))
      | none =>
        rw [replaceAll_cons_nomatch m repl hm c t hmc] at h
        obtain ⟨hxc, h2⟩ := dropLit_cons _ _ _ _ _ h
        obtain ⟨v, hv1, hv2⟩ := ih (fun y hy => hlit y (by simp [hy])) t r h2
        refine ⟨v, ?_, hv2⟩
        subst hxc
        simpa [dropLit] using hv1

/-! ### Head-match transfer: a `ghp_` (resp. `Bearer `) match at a position of
the scanner output forces one at the same position of the input -/

theorem ghpMatch_isSome_iff (s : List Char) :
    (ghpMatch s).isSome = true ↔
      ∃ r, dropLit ghpLit s = some r ∧ 36 ≤ runLen isAlnum r := by
  simp only [ghpMatch]
  cases hd : dropLit ghpLit s with
  | none => simp
  | some r1 => simp [dropCount_isSome_iff]

theorem bearerMatch_isSome_iff (s : List Char) :
    (bearerMatch s).isSome = true ↔
      ∃ r, dropLit bearerLit s = some r ∧ 1 ≤ runLen isTokChar r := by
  simp only [bearerMatch]
  cases hd : dropLit bearerLit s with
  | none => simp
  | some r1 =>
    cases r1 with
    | nil => simp [runLen]
    | cons c t =>
      by_cases hc : isTokChar c <;> simp [hc, runLen]

theorem ghp_head_transfer (m : List Char → Option (List Char)) (repl : List Char)
    (hm : Consuming m) (hrepl : repl ≠ [])
    (hlit : ∀ x ∈ hpuLit, repl.head? ≠ some x)
    (hrun : ∀ v, runLen isAlnum (replaceAll m repl v) ≤ runLen isAlnum v)
    (c : Char) (t : List Char)
    (hsome : (ghpMatch (c :: replaceAll m repl t)).isSome = true) :
    (ghpMatch (c :: t)).isSome = true := by
  obtain ⟨r, hdrop, hlen⟩ := (ghpMatch_isSome_iff _).mp hsome
  have hgl : ghpLit = 'g' :: hpuLit := rfl
  rw [hgl] at hdrop
  obtain ⟨hcg, hdrop2⟩ := dropLit_cons _ _ _ _ _ hdrop
  obtain ⟨v, hv1, hv2⟩ := transferLit m repl hm hrepl hpuLit hlit t r hdrop2
  refine (ghpMatch_isSome_iff _).mpr ⟨v, ?_, ?_⟩
  · rw [hgl]
    subst hcg
    simpa [dropLit] using hv1
  · calc 36 ≤ runLen isAlnum r := hlen
    _ = runLen isAlnum (replaceAll m repl v) := by rw [hv2]
    _ ≤ runLen isAlnum v := hrun v

theorem bearer_head_transfer (m : List Char → Option (List Char)) (repl : List Char)
    (hm : Consuming m) (hrepl : repl ≠ [])
    (hlit : ∀ x ∈ earLit, repl.head? ≠ some x)
    (hrun : ∀ v, runLen isTokChar (replaceAll m repl v) ≤ runLen isTokChar v)
    (c : Char) (t : List Char)
    (hsome : (bearerMatch (c :: replaceAll m repl t)).isSome = true) :
    (bearerMatch (c :: t)).isSome = true := by
  obtain ⟨r, hdrop, hlen⟩ := (bearerMatch_isSome_iff _).mp hsome
  have hgl : bearerLit = 'B' :: earLit := rfl
  rw [hgl] at hdrop
  obtain ⟨hcg, hdrop2⟩ := dropLit_cons _ _ _ _ _ hdrop
  obtain ⟨v, hv1, hv2⟩ := transferLit m repl hm hrepl earLit hlit t r hdrop2
  refine (bearerMatch_isSome_iff _).mpr ⟨v, ?_, ?_⟩
  · rw [hgl]
    subst hcg
    simpa [dropLit] using hv1
  · calc 1 ≤ runLen isTokChar r := hlen
    _ = runLen isTokChar (replaceAll m repl v) := by rw [hv2]
    _ ≤ runLen isTokChar v := hrun v

/-! ### Generic absence lemmas for the scanner -/

/-- A pass that replaces its own pattern leaves no occurrence of it. -/
theorem hasMatch_free_self (m : List Char → Option (List Char)) (repl : List Char)
    (hm : Consuming m)
    (hskip : ∀ X, hasMatch m (repl ++ X) = hasMatch m X)
    (htrans : ∀ c t, (m (c :: replaceAll m repl t)).isSome = true →
      (m (c :: t)).isSome = true) :
    ∀ (n : Nat) (s : List Char), s.length ≤ n →
      hasMatch m (replaceAll m repl s) = false := by
  have hnil : (m []).isSome = false := by
    cases hn : m [] with
    | none => rfl
    | some r => exact absurd (hm [] r hn) (by simp)
  intro n
  induction n with
  | zero =>
    intro s hs
    have : s = [] := List.eq_nil_of_length_eq_zero (Nat.le_zero.mp hs)
    subst this
    simpa [replaceAll_nil, hasMatch] using hnil
  | succ nk ih =>
    intro s hs
    cases s with
    | nil => simpa [replaceAll_nil, hasMatch] using hnil
    | cons c t =>
      cases hmc : m (c :: t) with
      | some rem =>
        rw [replaceAll_cons_match m repl hm c t rem hmc, hskip]
        have hlt := hm _ _ hmc
        exact ih rem (by simp only [List.length_cons] at hs hlt; omega)
      | none =>
        rw [replaceAll_cons_nomatch m repl hm c t hmc]
        simp only [hasMatch, Bool.or_eq_false_iff]
        constructor
        · by_contra hcon
          have hsome : (m (c :: replaceAll m repl t)).isSome = true := by
            revert hcon
            cases (m (c :: replaceAll m repl t)).isSome <;> simp
          have := htrans c t hsome
          rw [hmc] at this
          simp at this
        · exact ih t (by simp only [List.length_cons] at hs; omega)

/-- A pass for a different pattern preserves absence of the target pattern. -/
theorem hasMatch_free_preserved (tm m : List Char → Option (List Char))
    (repl : List Char) (hm : Consuming m)
    (hdec : ∀ u r, m u = some r → ∃ a, u = a ++ r)
    (hskip : ∀ X, hasMatch tm (repl ++ X) = hasMatch tm X)
    (htrans : ∀ c t, (tm (c :: replaceAll m repl t)).isSome = true →
      (tm (c :: t)).isSome = true) :
    ∀ (n : Nat) (s : List Char), s.length ≤ n → hasMatch tm s = false →
      hasMatch tm (replaceAll m repl s) = false := by
  intro n
  induction n with
  | zero =>
    intro s hs hfree
    have : s = [] := List.eq_nil_of_length_eq_zero (Nat.le_zero.mp hs)
    subst this
    simpa [replaceAll_nil] using hfree
  | succ nk ih =>
    intro s hs hfree
    cases s with
    | nil => simpa [replaceAll_nil] using hfree
    | cons c t =>
      cases hmc : m (c :: t) with
      | some rem =>
        rw [replaceAll_cons_match m repl hm c t rem hmc, hskip]
        have hlt := hm _ _ hmc
        obtain ⟨a, ha⟩ := hdec _ _ hmc
        have hfr : hasMatch tm rem = false := by
          rw [ha] at hfree
          exact hasMatch_append_right tm a rem hfree
        exact ih rem (by simp only [List.length_cons] at hs hlt; omega) hfr
      | none =>
        rw [replaceAll_cons_nomatch m repl hm c t hmc]
        simp only [hasMatch, Bool.or_eq_false_iff] at hfree ⊢
        constructor
        · by_contra hcon
          have hsome : (tm (c :: replaceAll m repl t)).isSome = true := by
            revert hcon
            cases (tm (c :: replaceAll m repl t)).isSome <;> simp
          have := htrans c t hsome
          rw [this] at hfree
          simp at hfree
        · exact ih t (by simp only [List.length_cons] at hs; omega) hfree.2

/-! ### Run-length bounds for each pass -/

theorem runLen_alnum_ghpReplace (s : List Char) :
    runLen isAlnum (ghpReplace s) ≤ runLen isAlnum s := by
  refine runLen_replaceAll_le ghpMatch redactedTokenChars ghpMatch_consuming isAlnum 0
    (fun b => ?_) (fun u rem _ => Nat.zero_le _) s.length s (le_refl _)
  have : isAlnum '[' = false := by decide
  simp [redactedTokenChars, runLen, this]

theorem runLen_alnum_patReplace (s : List Char) :
    runLen isAlnum (patReplace s) ≤ runLen isAlnum s := by
  refine runLen_replaceAll_le patMatch redactedTokenChars patMatch_consuming isAlnum 0
    (fun b => ?_) (fun u rem _ => Nat.zero_le _) s.length s (le_refl _)
  have : isAlnum '[' = false := by decide
  simp [redactedTokenChars, runLen, this]

theorem runLen_alnum_bearerReplace (s : List Char) :
    runLen isAlnum (bearerReplace s) ≤ runLen isAlnum s := by
  refine runLen_replaceAll_le bearerMatch bearerRepl bearerMatch_consuming isAlnum 6
    (fun b => ?_) (fun u rem hu => ?_) s.length s (le_refl _)
  · rw [runLen_append_stop isAlnum bearerRepl ⟨' ', by decide, by decide⟩ b]
    decide
  · obtain ⟨a, ha, _⟩ := bearerMatch_decomp u rem hu
    rw [ha, List.append_assoc,
      runLen_append_stop isAlnum bearerLit ⟨' ', by decide, by decide⟩ (a ++ rem)]
    decide

theorem runLen_alnum_authReplace (s : List Char) :
    runLen isAlnum (authReplace s) ≤ runLen isAlnum s := by
  refine runLen_replaceAll_le authMatch authRepl authMatch_consuming isAlnum 13
    (fun b => ?_) (fun u rem hu => ?_) s.length s (le_refl _)
  · rw [runLen_append_stop isAlnum authRepl ⟨':', by decide, by decide⟩ b]
    decide
  · obtain ⟨a, ha, _⟩ := authMatch_decomp u rem hu
    rw [ha, List.append_assoc,
      runLen_append_stop isAlnum authLit ⟨':', by decide, by decide⟩ (a ++ rem)]
    decide

theorem runLen_tok_bearerReplace (s : List Char) :
    runLen isTokChar (bearerReplace s) ≤ runLen isTokChar s := by
  refine runLen_replaceAll_le bearerMatch bearerRepl bearerMatch_consuming isTokChar 6
    (fun b => ?_) (fun u rem hu => ?_) s.length s (le_refl _)
  · rw [runLen_append_stop isTokChar bearerRepl ⟨' ', by decide, by decide⟩ b]
    decide
  · obtain ⟨a, ha, _⟩ := bearerMatch_decomp u rem hu
    rw [ha, List.append_assoc,
      runLen_append_stop isTokChar bearerLit ⟨' ', by decide, by decide⟩ (a ++ rem)]
    decide

theorem runLen_tok_authReplace (s : List Char) :
    runLen isTokChar (authReplace s) ≤ runLen isTokChar s := by
  refine runLen_replaceAll_le authMatch authRepl authMatch_consuming isTokChar 13
    (fun b => ?_) (fun u rem hu => ?_) s.length s (le_refl _)
  · rw [runLen_append_stop isTokChar authRepl ⟨':', by decide, by decide⟩ b]
    decide
  · obtain ⟨a, ha, _⟩ := authMatch_decomp u rem hu
    rw [ha, List.append_assoc,
      runLen_append_stop isTokChar authLit ⟨':', by decide, by decide⟩ (a ++ rem)]
    decide

/-! ### Skip lemmas: no target match starts inside a replacement block -/

theorem ghp_skip_redacted (X : List Char) :
    hasMatch ghpMatch (redactedTokenChars ++ X) = hasMatch ghpMatch X :=
  hasMatch_append_skip ghpMatch 'g' ghpMatch_head redactedTokenChars X (by decide)

theorem ghp_skip_bearerRepl (X : List Char) :
    hasMatch ghpMatch (bearerRepl ++ X) = hasMatch ghpMatch X :=
  hasMatch_append_skip ghpMatch 'g' ghpMatch_head bearerRepl X (by decide)

theorem ghp_skip_authRepl (X : List Char) :
    hasMatch ghpMatch (authRepl ++ X) = hasMatch ghpMatch X :=
  hasMatch_append_skip ghpMatch 'g' ghpMatch_head authRepl X (by decide)

theorem bearer_skip_authRepl (X : List Char) :
    hasMatch bearerMatch (authRepl ++ X) = hasMatch bearerMatch X :=
  hasMatch_append_skip bearerMatch 'B' bearerMatch_head authRepl X (by decide)

theorem bearer_skip_bearerRepl (X : List Char) :
    hasMatch bearerMatch (bearerRepl ++ X) = hasMatch bearerMatch X := by
  have hsplit : bearerRepl ++ X = 'B' :: (bearerReplTail ++ X) := rfl
  have hhead : bearerMatch (bearerRepl ++ X) = none := by
    have hd : dropLit bearerLit (bearerRepl ++ X) =
        some (['[', 'R', 'E', 'D', 'A', 'C', 'T', 'E', 'D', ']'] ++ X) := rfl
    have hts : isTokChar '[' = false := by decide
    simp only [bearerMatch, hd, List.cons_append, hts]
    simp
  rw [hsplit, hasMatch]
  rw [← hsplit, hhead]
  have htail := hasMatch_append_skip bearerMatch 'B' bearerMatch_head
    bearerReplTail X (by decide)
  rw [htail]
  simp

/-! ### Decomposition in prefix form -/

theorem ghpMatch_dec (u r : List Char) (h : ghpMatch u = some r) : ∃ a, u = a ++ r := by
  obtain ⟨a, ha, _, _⟩ := ghpMatch_decomp u r h
  exact ⟨ghpLit ++ a, by rw [ha, List.append_assoc]⟩

theorem patMatch_dec (u r : List Char) (h : patMatch u = some r) : ∃ a, u = a ++ r := by
  obtain ⟨a, ha, _⟩ := patMatch_decomp u r h
  exact ⟨patLit ++ a, by rw [ha, List.append_assoc]⟩

theorem bearerMatch_dec (u r : List Char) (h : bearerMatch u = some r) : ∃ a, u = a ++ r := by
  obtain ⟨a, ha, _⟩ := bearerMatch_decomp u r h
  exact ⟨bearerLit ++ a, by rw [ha, List.append_assoc]⟩

theorem authMatch_dec (u r : List Char) (h : authMatch u = some r) : ∃ a, u = a ++ r := by
  obtain ⟨a, ha, _⟩ := authMatch_decomp u r h
  exact ⟨authLit ++ a, by rw [ha, List.append_assoc]⟩

/-! ### The six absence facts for the sanitizer chain -/

theorem ghpFree_ghpReplace (s : List Char) :
    hasMatch ghpMatch (ghpReplace s) = false :=
  hasMatch_free_self ghpMatch redactedTokenChars ghpMatch_consuming
    ghp_skip_redacted
    (fun c t h => ghp_head_transfer ghpMatch redactedTokenChars ghpMatch_consuming
      (by decide) (by decide) runLen_alnum_ghpReplace c t h)
    s.length s (le_refl _)

theorem ghpFree_patReplace (s : List Char) (hfree : hasMatch ghpMatch s = false) :
    hasMatch ghpMatch (patReplace s) = false :=
  hasMatch_free_preserved ghpMatch patMatch redactedTokenChars patMatch_consuming
    patMatch_dec ghp_skip_redacted
    (fun c t h => ghp_head_transfer patMatch redactedTokenChars patMatch_consuming
      (by decide) (by decide) runLen_alnum_patReplace c t h)
    s.length s (le_refl _) hfree

theorem ghpFree_bearerReplace (s : List Char) (hfree : hasMatch ghpMatch s = false) :
    hasMatch ghpMatch (bearerReplace s) = false :=
  hasMatch_free_preserved ghpMatch bearerMatch bearerRepl bearerMatch_consuming
    bearerMatch_dec ghp_skip_bearerRepl
    (fun c t h => ghp_head_transfer bearerMatch bearerRepl bearerMatch_consuming
      (by decide) (by decide) runLen_alnum_bearerReplace c t h)
    s.length s (le_refl _) hfree

theorem ghpFree_authReplace (s : List Char) (hfree : hasMatch ghpMatch s = false) :
    hasMatch ghpMatch (authReplace s) = false :=
  hasMatch_free_preserved ghpMatch authMatch authRepl authMatch_consuming
    authMatch_dec ghp_skip_authRepl
    (fun c t h => ghp_head_transfer authMatch authRepl authMatch_consuming
      (by decide) (by decide) runLen_alnum_authReplace c t h)
    s.length s (le_refl _) hfree

theorem bearerFree_bearerReplace (s : List Char) :
    hasMatch bearerMatch (bearerReplace s) = false :=
  hasMatch_free_self bearerMatch bearerRepl bearerMatch_consuming
    bearer_skip_bearerRepl
    (fun c t h => bearer_head_transfer bearerMatch bearerRepl bearerMatch_consuming
      (by decide) (by decide) runLen_tok_bearerReplace c t h)
    s.length s (le_refl _)

theorem bearerFree_authReplace (s : List Char) (hfree : hasMatch bearerMatch s = false) :
    hasMatch bearerMatch (authReplace s) = false :=
  hasMatch_free_preserved bearerMatch authMatch authRepl authMatch_consuming
    authMatch_dec bearer_skip_authRepl
    (fun c t h => bearer_head_transfer authMatch authRepl authMatch_consuming
      (by decide) (by decide) runLen_tok_authReplace c t h)
    s.length s (le_refl _) hfree

/-- No personal-access-token pattern survives the complete sanitizer chain. -/
theorem sanitized_no_ghp (s : List Char) :
    hasMatch ghpMatch (sanitizeChars s) = false := by
  simp only [sanitizeChars]
  exact ghpFree_authReplace _ (ghpFree_bearerReplace _
    (ghpFree_patReplace _ (ghpFree_ghpReplace s)))

/-- No bearer-credential pattern survives the complete sanitizer chain. -/
theorem sanitized_no_bearer (s : List Char) :
    hasMatch bearerMatch (sanitizeChars s) = false := by
  simp only [sanitizeChars]
  exact bearerFree_authReplace _ (bearerFree_bearerReplace _)

theorem dropLit_append_ext : ∀ (l s r y : List Char),
    dropLit l s = some r → dropLit l (s ++ y) = some (r ++ y) := by
  intro l
  induction l with
  | nil =>
    intro s r y h
    have : s = r := by simpa [dropLit] using h
    subst this
    rfl
  | cons a as ih =>
    intro s r y h
    cases s with
    | nil => simp [dropLit] at h
    | cons b bs =>
      obtain ⟨hab, h2⟩ := dropLit_cons _ _ _ _ _ h
      subst hab
      simpa [dropLit] using ih bs r y h2

theorem dropCount_append_ext (p : Char → Bool) : ∀ (n : Nat) (s r y : List Char),
    dropCount p n s = some r → dropCount p n (s ++ y) = some (r ++ y) := by
  intro n
  induction n with
  | zero =>
    intro s r y h
    have : s = r := by simpa [dropCount] using h
    subst this
    rfl
  | succ k ih =>
    intro s r y h
    cases s with
    | nil => simp [dropCount] at h
    | cons c t =>
      simp only [dropCount] at h
      by_cases hc : p c
      · simp only [hc, if_true] at h
        simpa [dropCount, hc] using ih t r y h
      · simp [hc] at h

theorem ghpToken_ext (t b : List Char) (h : isGhpToken t = true) :
    (ghpMatch (t ++ b)).isSome = true := by
  simp only [isGhpToken] at h
  cases hm : ghpMatch t with
  | none => rw [hm] at h; simp at h
  | some r =>
    rw [hm] at h
    cases r with
    | cons x xs => simp at h
    | nil =>
      simp only [ghpMatch] at hm ⊢
      cases hd : dropLit ghpLit t with
      | none => rw [hd] at hm; simp at hm
      | some r1 =>
        rw [hd, Option.some_bind] at hm
        rw [dropLit_append_ext ghpLit t r1 b hd, Option.some_bind]
        rw [dropCount_append_ext isAlnum 36 r1 [] b hm]
        simp

theorem bearerCred_ext (t b : List Char) (h : isBearerCred t = true) :
    (bearerMatch (t ++ b)).isSome = true := by
  simp only [isBearerCred] at h
  cases hd : dropLit bearerLit t with
  | none => rw [hd] at h; simp at h
  | some r =>
    rw [hd] at h
    cases r with
    | nil => simp at h
    | cons c r2 =>
      simp only [Bool.and_eq_true, List.all_cons] at h
      simp only [bearerMatch, dropLit_append_ext bearerLit t (c :: r2) b hd,
        List.cons_append]
      rw [h.2.1]
      simp

/-- C7: for every error message containing a token-shaped substring (a GitHub
personal-access-token `ghp_` pattern or a bearer credential), the sanitizer
output of `sanitizeErrorForLogging` — from which every report field and log
entry is built — never contains that substring verbatim: no such token occurs
anywhere in `sanitizeChars msg`. -/
theorem C7_sanitizer_redacts (msg t : List Char)
    (ht : isGhpToken t = true ∨ isBearerCred t = true) :
    ¬ ∃ a b, sanitizeChars msg = a ++ (t ++ b) := by
  rintro ⟨a, b, heq⟩
  rcases ht with h | h
  · have hsome := ghpToken_ext t b h
    have hinf := hasMatch_of_infix ghpMatch a t b hsome
    rw [← heq, sanitized_no_ghp msg] at hinf
    simp at hinf
  · have hsome := bearerCred_ext t b h
    have hinf := hasMatch_of_infix bearerMatch a t b hsome
    rw [← heq, sanitized_no_bearer msg] at hinf
    simp at hinf

theorem C7_sanitizer_redacts_witness :
    (isGhpToken ghpTokenExample = true ∨ isBearerCred ghpTokenExample = true) ∧
      ¬ ∃ a b, sanitizeChars msgExample = a ++ (ghpTokenExample ++ b) :=
  ⟨Or.inl (by decide),
    C7_sanitizer_redacts msgExample ghpTokenExample (Or.inl (by decide))⟩

theorem classifyWait_isSome (now initialDelay : Int) (retries : Nat) (e : ApiError) :
    (classifyWait now initialDelay retries e).isSome = retryable e := by
  simp only [classifyWait, retryable]
  cases hr : e.ratelimitReset with
  | some reset => simp
  | none =>
    by_cases h1 : e.status == some 403 && containsLit rateLimitChars (errMessageChars e)
    · simp [h1]
    · by_cases h2 : e.status == some 502 || e.status == some 503 || e.status == some 504
      · simp [h1, h2]
      · simp [h1, h2]

/-! ### Behaviour of the retry loop -/

theorem backoffAux_succeeds {α : Type} (fn : Nat → Except ApiError α)
    (es : Nat → ApiError) (v : α) (maxRetries : Nat) (d : Int) :
    ∀ (j retries : Nat) (now : Int),
      retries + j ≤ maxRetries →
      (∀ i, i < j → fn (retries + i) = Except.error (es (retries + i))) →
      (∀ i, i < j → retryable (es (retries + i)) = true) →
      fn (retries + j) = Except.ok v →
      ∃ ts, backoffAux fn maxRetries d (maxRetries + 1 - retries) retries now
          = (Except.ok v, ts) ∧ ts.length = j + 1 := by
  intro j
  induction j with
  | zero =>
    intro retries now hle _ _ hsucc
    have hf : maxRetries + 1 - retries = (maxRetries - retries) + 1 := by omega
    rw [hf]
    simp only [Nat.add_zero] at hsucc
    exact ⟨[now], by simp [backoffAux, hsucc], rfl⟩
  | succ jk ih =>
    intro retries now hle hfail hretry hsucc
    have hf : maxRetries + 1 - retries = (maxRetries - retries) + 1 := by omega
    have h0 : fn retries = Except.error (es retries) := by
      have := hfail 0 (by omega)
      simpa using this
    have hr0 : retryable (es retries) = true := by
      have := hretry 0 (by omega)
      simpa using this
    cases hw : classifyWait now d retries (es retries) with
    | none =>
      have := classifyWait_isSome now d retries (es retries)
      rw [hw, hr0] at this
      simp at this
    | some w =>
      have hnx : ¬ (retries + 1 > maxRetries) := by omega
      obtain ⟨ts2, heq2, hlen2⟩ := ih (retries + 1) (now + w)
        (by omega)
        (fun i hi => by
          have := hfail (i + 1) (by omega)
          rw [show retries + (i + 1) = retries + 1 + i from by omega] at this
          exact this)
        (fun i hi => by
          have := hretry (i + 1) (by omega)
          rw [show retries + (i + 1) = retries + 1 + i from by omega] at this
          exact this)
        (by
          rw [show retries + 1 + jk = retries + (jk + 1) from by omega]
          exact hsucc)
      have hfin : maxRetries + 1 - (retries + 1) = maxRetries - retries := by omega
      rw [hfin] at heq2
      refine ⟨now :: ts2, ?_, by simp [hlen2]⟩
      rw [hf]
      simp only [backoffAux, h0, hw, hnx, if_false, heq2]

theorem backoffAux_exhausts {α : Type} (fn : Nat → Except ApiError α)
    (es : Nat → ApiError) (maxRetries : Nat) (d : Int) :
    ∀ (k retries : Nat) (now : Int),
      retries + k = maxRetries →
      (∀ i, retries ≤ i → i ≤ maxRetries →
        fn i = Except.error (es i) ∧ retryable (es i) = true) →
      ∃ ts, backoffAux fn maxRetries d (maxRetries + 1 - retries) retries now
          = (Except.error (es maxRetries), ts) ∧ ts.length = k + 1 := by
  intro k
  induction k with
  | zero =>
    intro retries now heq hall
    have hrm : retries = maxRetries := by omega
    subst hrm
    have h0 := hall retries (le_refl _) (le_refl _)
    cases hw : classifyWait now d retries (es retries) with
    | none =>
      have := classifyWait_isSome now d retries (es retries)
      rw [hw, h0.2] at this
      simp at this
    | some w =>
      have hf : retries + 1 - retries = 1 := by omega
      rw [hf]
      refine ⟨[now], ?_, rfl⟩
      simp [backoffAux, h0.1, hw]
  | succ kk ih =>
    intro retries now hkk hall
    have h0 := hall retries (le_refl _) (by omega)
    cases hw : classifyWait now d retries (es retries) with
    | none =>
      have := classifyWait_isSome now d retries (es retries)
      rw [hw, h0.2] at this
      simp at this
    | some w =>
      have hnx : ¬ (retries + 1 > maxRetries) := by omega
      obtain ⟨ts2, heq2, hlen2⟩ := ih (retries + 1) (now + w) (by omega)
        (fun i hi1 hi2 => hall i (by omega) hi2)
      have hfin : maxRetries + 1 - (retries + 1) = maxRetries - retries := by omega
      rw [hfin] at heq2
      have hf : maxRetries + 1 - retries = (maxRetries - retries) + 1 := by omega
      refine ⟨now :: ts2, ?_, by simp [hlen2]⟩
      rw [hf]
      simp only [backoffAux, h0.1, hw, hnx, if_false, heq2]

theorem backoffAux_length_le {α : Type} (fn : Nat → Except ApiError α)
    (maxRetries : Nat) (d : Int) :
    ∀ (fuel retries : Nat) (now : Int),
      (backoffAux fn maxRetries d fuel retries now).2.length ≤ fuel := by
  intro fuel
  induction fuel with
  | zero => intro retries now; simp [backoffAux]
  | succ k ih =>
    intro retries now
    cases hf : fn retries with
    | ok v => simp [backoffAux, hf]
    | error e =>
      cases hw : classifyWait now d retries e with
      | none => simp [backoffAux, hf, hw]
      | some w =>
        by_cases hx : retries + 1 > maxRetries
        · simp [backoffAux, hf, hw, hx]
        · simp only [backoffAux, hf, hw, hx, if_false, List.length_cons]
          have := ih (retries + 1) (now + w)
          omega

theorem backoffAux_const {α : Type} (r : Except ApiError α) (maxRetries : Nat) (d : Int) :
    ∀ (fuel retries : Nat) (now : Int),
      retries + fuel = maxRetries + 1 → retries ≤ maxRetries →
      (backoffAux (fun _ => r) maxRetries d fuel retries now).1 = r := by
  intro fuel
  induction fuel with
  | zero => intro retries now h1 h2; omega
  | succ k ih =>
    intro retries now h1 h2
    cases r with
    | ok v => simp [backoffAux]
    | error e =>
      cases hw : classifyWait now d retries e with
      | none => simp [backoffAux, hw]
      | some w =>
        by_cases hx : retries + 1 > maxRetries
        · simp [backoffAux, hw, hx]
        · simp only [backoffAux, hw, hx, if_false]
          exact ih (retries + 1) (now + w) (by omega) (by omega)

theorem backoffAux_head_now {α : Type} (fn : Nat → Except ApiError α)
    (maxRetries : Nat) (d : Int) (fuel retries : Nat) (now : Int) (h : 1 ≤ fuel) :
    (backoffAux fn maxRetries d fuel retries now).2.head? = some now := by
  cases fuel with
  | zero => omega
  | succ k =>
    cases hf : fn retries with
    | ok v => simp [backoffAux, hf]
    | error e =>
      cases hw : classifyWait now d retries e with
      | none => simp [backoffAux, hf, hw]
      | some w =>
        by_cases hx : retries + 1 > maxRetries
        · simp [backoffAux, hf, hw, hx]
        · simp [backoffAux, hf, hw, hx]

/-- C2: an operation that fails `k` times with retryable (transient) errors
and then succeeds is returned successfully after exactly `k+1` invocations
when `maxRetries ≥ k`; when `maxRetries < k` the wrapper fails with the error
of the last attempt after exactly `maxRetries+1` invocations; and no run of
the wrapper formed from any operation ever makes more than `maxRetries+1`
invocations. -/
theorem C2_retry_policy {α : Type} (maxRetries k : Nat) (fn : Nat → Except ApiError α)
    (es : Nat → ApiError) (v : α) (d now : Int)
    (hfail : ∀ i, i < k → fn i = Except.error (es i))
    (hretry : ∀ i, i < k → retryable (es i) = true)
    (hsucc : fn k = Except.ok v) :
    (k ≤ maxRetries →
      (withExponentialBackoffRun fn maxRetries d now).1 = Except.ok v ∧
      (withExponentialBackoffRun fn maxRetries d now).2.length = k + 1) ∧
    (maxRetries < k →
      (withExponentialBackoffRun fn maxRetries d now).1 = Except.error (es maxRetries) ∧
      (withExponentialBackoffRun fn maxRetries d now).2.length = maxRetries + 1) ∧
    (∀ gn : Nat → Except ApiError α,
      (withExponentialBackoffRun gn maxRetries d now).2.length ≤ maxRetries + 1) := by
  refine ⟨?_, ?_, ?_⟩
  · intro hk
    obtain ⟨ts, heq, hlen⟩ := backoffAux_succeeds fn es v maxRetries d k 0 now
      (by omega) (fun i hi => by simpa using hfail i hi)
      (fun i hi => by simpa using hretry i hi) (by simpa using hsucc)
    rw [withExponentialBackoffRun, show maxRetries + 1 = maxRetries + 1 - 0 from rfl, heq]
    exact ⟨rfl, hlen⟩
  · intro hk
    obtain ⟨ts, heq, hlen⟩ := backoffAux_exhausts fn es maxRetries d maxRetries 0 now
      (by omega)
      (fun i _ hi2 => ⟨hfail i (by omega), hretry i (by omega)⟩)
    rw [withExponentialBackoffRun, show maxRetries + 1 = maxRetries + 1 - 0 from rfl, heq]
    exact ⟨rfl, hlen⟩
  · intro gn
    exact backoffAux_length_le gn maxRetries d (maxRetries + 1) 0 now

theorem C2_retry_policy_witness :
    (withExponentialBackoffRun fnTransient 5 1000 0).1 = Except.ok 42 ∧
    (withExponentialBackoffRun fnTransient 5 1000 0).2.length = 2 := by
  have h := C2_retry_policy 5 1 fnTransient (fun _ => e502) 42 1000 0
    (fun i hi => by
      have hi0 : i = 0 := by omega
      subst hi0
      rfl)
    (fun i hi => show retryable e502 = true by decide)
    rfl
  exact h.1 (by omega)

/-- C4 counterexample: at `now = 10000` with `resetAt = 4000`, the source
waits the 60000 ms fallback, not `max(resetTime - now, 0) + 1000 = 1000` as
the claim states, so the claimed wait formula is false on the code. -/
theorem C4_counterexample :
    classifyWait 10000 1000 0 staleResetErr = some 60000 ∧
    max ((4 : Int) * 1000 - 10000) 0 + 1000 = 1000 ∧
    ¬ ((60000 : Int) = 1000) := by
  refine ⟨?_, by decide, by decide⟩
  decide

/-- C4 (amended): for a rate-limited error with a known reset time the wait is
`(resetTime*1000 - now) + 1000` when positive, else the 60000 ms fallback; in
particular when `resetAt = now + 5000` the first invocation happens at `now`,
the second exactly at `now + 6000` — no earlier than `now + 5000 + 1000` —
and no invocation occurs in between. -/
theorem C4_amended_rate_limit_wait {α : Type} (maxRetries : Nat)
    (hm : 1 ≤ maxRetries) (fn : Nat → Except ApiError α) (e : ApiError)
    (reset now d : Int) (h0 : fn 0 = Except.error e)
    (hr : e.ratelimitReset = some reset) (h5 : reset * 1000 - now = 5000) :
    (∀ (now2 d2 : Int) (r2 : Nat),
      classifyWait now2 d2 r2 e =
        some (if reset * 1000 - now2 + 1000 > 0 then reset * 1000 - now2 + 1000
              else 60000)) ∧
    (withExponentialBackoffRun fn maxRetries d now).2.head? = some now ∧
    (withExponentialBackoffRun fn maxRetries d now).2.tail.head? = some (now + 6000) ∧
    now + 6000 ≥ now + 5000 + 1000 := by
  refine ⟨fun now2 d2 r2 => by simp [classifyWait, hr], ?_, ?_, by omega⟩
  · exact backoffAux_head_now fn maxRetries d (maxRetries + 1) 0 now (by omega)
  · obtain ⟨m, rfl⟩ : ∃ m, maxRetries = m + 1 := ⟨maxRetries - 1, by omega⟩
    have hw : classifyWait now d 0 e = some 6000 := by
      have h6 : reset * 1000 - now + 1000 = 6000 := by omega
      simp [classifyWait, hr, h6]
    have hnx : ¬ (0 + 1 > m + 1) := by omega
    rw [withExponentialBackoffRun]
    simp only [backoffAux, h0, hw, hnx, if_false, List.tail_cons]
    exact backoffAux_head_now fn (m + 1) d (m + 1) 1 (now + 6000) (by omega)

theorem C4_amended_rate_limit_wait_witness :
    (withExponentialBackoffRun fnRateLimited 1 1000 0).2.head? = some 0 ∧
    (withExponentialBackoffRun fnRateLimited 1 1000 0).2.tail.head? = some 6000 := by
  have h := C4_amended_rate_limit_wait 1 (by omega) fnRateLimited resetFiveErr 5 0 1000
    rfl rfl (by decide)
  refine ⟨h.2.1, ?_⟩
  have := h.2.2.1
  simpa using this

/-- Convenience: the retry wrapper on a deterministic operation returns that
operation's result. -/
theorem withExponentialBackoffRun_const {α : Type} (r : Except ApiError α)
    (maxRetries : Nat) (d now : Int) :
    (withExponentialBackoffRun (fun _ => r) maxRetries d now).1 = r :=
  backoffAux_const r maxRetries d (maxRetries + 1) 0 now (by omega) (by omega)

theorem chunksF_fuel_eq {σ : Type} (C : Nat) :
    ∀ (f1 f2 : Nat) (l : List σ), l.length ≤ f1 → l.length ≤ f2 →
      chunksF C f1 l = chunksF C f2 l := by
  intro f1
  induction f1 with
  | zero =>
    intro f2 l h1 _
    have : l = [] := List.eq_nil_of_length_eq_zero (Nat.le_zero.mp h1)
    subst this
    cases f2 <;> rfl
  | succ k ih =>
    intro f2 l h1 h2
    cases l with
    | nil => cases f2 <;> rfl
    | cons a t =>
      cases f2 with
      | zero => simp at h2
      | succ k2 =>
        simp only [chunksF]
        rw [ih k2 (t.drop (C - 1))
          (by simp only [List.length_cons] at h1; simp [List.length_drop]; omega)
          (by simp only [List.length_cons] at h2; simp [List.length_drop]; omega)]

theorem chunks_nil {σ : Type} (C : Nat) : chunks C ([] : List σ) = [] := rfl

theorem chunks_cons {σ : Type} (C : Nat) (a : σ) (t : List σ) :
    chunks C (a :: t) = (a :: t).take C :: chunks C (t.drop (C - 1)) := by
  simp only [chunks, List.length_cons, chunksF]
  rw [chunksF_fuel_eq C t.length (t.drop (C - 1)).length (t.drop (C - 1))
    (by simp only [List.length_drop]; omega) (le_refl _)]

theorem schedTraceF_fuel_eq (C : Nat) :
    ∀ (f1 f2 : Nat) (l : List ItemWorld), l.length ≤ f1 → l.length ≤ f2 →
      schedTraceF C f1 l = schedTraceF C f2 l := by
  intro f1
  induction f1 with
  | zero =>
    intro f2 l h1 _
    have : l = [] := List.eq_nil_of_length_eq_zero (Nat.le_zero.mp h1)
    subst this
    cases f2 <;> rfl
  | succ k ih =>
    intro f2 l h1 h2
    cases l with
    | nil => cases f2 <;> rfl
    | cons a t =>
      cases f2 with
      | zero => simp at h2
      | succ k2 =>
        simp only [schedTraceF]
        rw [ih k2 (t.drop (C - 1))
          (by simp only [List.length_cons] at h1; simp [List.length_drop]; omega)
          (by simp only [List.length_cons] at h2; simp [List.length_drop]; omega)]

theorem schedTrace_nil (C : Nat) : schedTrace C [] = [] := rfl

theorem schedTrace_cons (C : Nat) (a : ItemWorld) (t : List ItemWorld) :
    schedTrace C (a :: t) =
      RunEvent.batchStart (((a :: t).take C).map (fun w => w.repo.name)) ::
        (if (t.drop (C - 1)).isEmpty then schedTrace C (t.drop (C - 1))
         else RunEvent.interDelay (THROTTLE_DELAY * 2) :: schedTrace C (t.drop (C - 1))) := by
  simp only [schedTrace, List.length_cons, schedTraceF]
  rw [schedTraceF_fuel_eq C t.length (t.drop (C - 1)).length (t.drop (C - 1))
    (by simp only [List.length_drop]; omega) (le_refl _)]

/-! ### Facts about the chunked batches -/

theorem chunks_join {σ : Type} (C : Nat) (hC : 1 ≤ C) :
    ∀ (n : Nat) (l : List σ), l.length ≤ n → (chunks C l).flatten = l := by
  intro n
  induction n with
  | zero =>
    intro l hl
    have : l = [] := List.eq_nil_of_length_eq_zero (Nat.le_zero.mp hl)
    subst this
    simp [chunks_nil]
  | succ k ih =>
    intro l hl
    cases l with
    | nil => simp [chunks_nil]
    | cons a t =>
      rw [chunks_cons]
      simp only [List.flatten_cons]
      rw [ih (t.drop (C - 1))
        (by simp only [List.length_cons] at hl; simp only [List.length_drop]; omega)]
      obtain ⟨c, rfl⟩ : ∃ c, C = c + 1 := ⟨C - 1, by omega⟩
      simp only [Nat.add_sub_cancel, List.take_succ_cons, List.cons_append]
      rw [List.take_append_drop]

theorem chunks_length {σ : Type} (C : Nat) (hC : 1 ≤ C) :
    ∀ (n : Nat) (l : List σ), l.length ≤ n →
      (chunks C l).length = (l.length + C - 1) / C := by
  intro n
  induction n with
  | zero =>
    intro l hl
    have : l = [] := List.eq_nil_of_length_eq_zero (Nat.le_zero.mp hl)
    subst this
    rw [chunks_nil]
    simp only [List.length_nil]
    rw [Nat.div_eq_of_lt (by omega)]
  | succ k ih =>
    intro l hl
    cases l with
    | nil =>
      rw [chunks_nil]
      simp only [List.length_nil]
      rw [Nat.div_eq_of_lt (by omega)]
    | cons a t =>
      rw [chunks_cons]
      simp only [List.length_cons]
      have hnum : t.length + 1 + C - 1 = t.length + C := by omega
      rw [hnum, Nat.add_div_right _ (by omega : 0 < C)]
      have hrec := ih (t.drop (C - 1))
        (by simp only [List.length_cons] at hl; simp only [List.length_drop]; omega)
      rw [hrec]
      simp only [List.length_drop]
      by_cases hcm : C - 1 ≤ t.length
      · have : t.length - (C - 1) + C - 1 = t.length := by omega
        rw [this]
      · have h0 : t.length - (C - 1) = 0 := by omega
        rw [h0]
        rw [Nat.div_eq_of_lt (by omega), Nat.div_eq_of_lt (by omega)]

theorem chunks_mem_size {σ : Type} (C : Nat) (hC : 1 ≤ C) :
    ∀ (n : Nat) (l : List σ), l.length ≤ n →
      ∀ b ∈ chunks C l, b ≠ [] ∧ b.length ≤ C := by
  intro n
  induction n with
  | zero =>
    intro l hl b hb
    have : l = [] := List.eq_nil_of_length_eq_zero (Nat.le_zero.mp hl)
    subst this
    rw [chunks_nil] at hb
    simp at hb
  | succ k ih =>
    intro l hl b hb
    cases l with
    | nil => rw [chunks_nil] at hb; simp at hb
    | cons a t =>
      rw [chunks_cons] at hb
      rcases List.mem_cons.mp hb with h1 | h2
      · subst h1
        obtain ⟨c, rfl⟩ : ∃ c, C = c + 1 := ⟨C - 1, by omega⟩
        constructor
        · simp [List.take_cons]
        · simp only [List.length_take]
          omega
      · exact ih (t.drop (C - 1))
          (by simp only [List.length_cons] at hl; simp only [List.length_drop]; omega) b h2

theorem chunks_ne_nil_of_ne_nil {σ : Type} (C : Nat) (l : List σ) (hl : l ≠ []) :
    chunks C l ≠ [] := by
  cases l with
  | nil => exact absurd rfl hl
  | cons a t => rw [chunks_cons]; simp

theorem chunks_dropLast_size {σ : Type} (C : Nat) (hC : 1 ≤ C) :
    ∀ (n : Nat) (l : List σ), l.length ≤ n →
      ∀ b ∈ (chunks C l).dropLast, b.length = C := by
  intro n
  induction n with
  | zero =>
    intro l hl b hb
    have : l = [] := List.eq_nil_of_length_eq_zero (Nat.le_zero.mp hl)
    subst this
    rw [chunks_nil] at hb
    simp at hb
  | succ k ih =>
    intro l hl b hb
    cases l with
    | nil => rw [chunks_nil] at hb; simp at hb
    | cons a t =>
      rw [chunks_cons] at hb
      by_cases hrest : t.drop (C - 1) = []
      · rw [hrest, chunks_nil] at hb
        simp at hb
      · have hchne := chunks_ne_nil_of_ne_nil C (t.drop (C - 1)) hrest
        rw [List.dropLast_cons_of_ne_nil hchne] at hb
        rcases List.mem_cons.mp hb with h1 | h2
        · subst h1
          have hlen : C ≤ t.length + 1 := by
            have := List.length_pos.mpr hrest
            simp only [List.length_drop] at this
            omega
          simp only [List.length_take, List.length_cons]
          omega
        · exact ih (t.drop (C - 1))
            (by simp only [List.length_cons] at hl; simp only [List.length_drop]; omega) b h2

theorem schedTrace_eq_interleave (C : Nat) (hC : 1 ≤ C) :
    ∀ (n : Nat) (l : List ItemWorld), l.length ≤ n →
      schedTrace C l =
        interleaveTrace ((chunks C l).map (fun b => b.map (fun w => w.repo.name))) := by
  intro n
  induction n with
  | zero =>
    intro l hl
    have : l = [] := List.eq_nil_of_length_eq_zero (Nat.le_zero.mp hl)
    subst this
    rfl
  | succ k ih =>
    intro l hl
    cases l with
    | nil => rfl
    | cons a t =>
      rw [schedTrace_cons, chunks_cons]
      by_cases hrest : t.drop (C - 1) = []
      · rw [hrest]
        simp [schedTrace_nil, chunks_nil, interleaveTrace]
      · have hne : ¬ (t.drop (C - 1)).isEmpty = true := by
          simpa [List.isEmpty_iff] using hrest
        simp only [hne, if_false]
        have hrec := ih (t.drop (C - 1))
          (by simp only [List.length_cons] at hl; simp only [List.length_drop]; omega)
        rw [hrec]
        obtain ⟨r0, t0, hr⟩ := List.exists_cons_of_ne_nil hrest
        rw [hr, chunks_cons]
        simp [interleaveTrace]

theorem interleave_count_batch :
    ∀ bs : List (List String), (interleaveTrace bs).countP isBatchEvent = bs.length := by
  intro bs
  induction bs with
  | nil => rfl
  | cons b bs ih =>
    cases bs with
    | nil => simp [interleaveTrace, isBatchEvent, List.countP_cons]
    | cons b2 bs2 =>
      simp [interleaveTrace, isBatchEvent, List.countP_cons, List.length_cons] at ih ⊢
      omega

theorem interleave_count_delay :
    ∀ bs : List (List String), (interleaveTrace bs).countP isDelayEvent = bs.length - 1 := by
  intro bs
  induction bs with
  | nil => rfl
  | cons b bs ih =>
    cases bs with
    | nil => simp [interleaveTrace, isDelayEvent, List.countP_cons]
    | cons b2 bs2 =>
      simp [interleaveTrace, isDelayEvent, List.countP_cons, List.length_cons] at ih ⊢
      omega

/-! ### Completion orders permute, identity order preserves -/

theorem filterMap_getElem_range {β : Type} :
    ∀ l : List β, (List.range l.length).filterMap (fun j => l[j]?) = l := by
  intro l
  induction l with
  | nil => rfl
  | cons a t ih =>
    simp only [List.length_cons, List.range_succ_eq_map, List.filterMap_cons,
      List.getElem?_cons_zero, List.filterMap_map]
    congr 1
    calc List.filterMap ((fun j => (a :: t)[j]?) ∘ Nat.succ) (List.range t.length)
        = List.filterMap (fun j => t[j]?) (List.range t.length) := by
          apply List.filterMap_congr
          intro j _
          simp
    _ = t := ih

theorem permuteBy_default {β : Type} (l : List β) :
    permuteBy (List.range l.length) l = l :=
  filterMap_getElem_range l

theorem permuteBy_perm {β : Type} (order : List Nat) (l : List β)
    (h : List.Perm order (List.range l.length)) :
    List.Perm (permuteBy order l) l := by
  have h1 : List.Perm (permuteBy order l) (permuteBy (List.range l.length) l) :=
    List.Perm.filterMap _ h
  rw [permuteBy_default] at h1
  exact h1

theorem batchEntries_perm (cfg : Config) (b : List ItemWorld) (o : List Nat)
    (h : List.Perm o (List.range b.length)) :
    List.Perm (batchEntries cfg b o)
      (b.map (fun w => (processRepository cfg w).entry)) := by
  apply permuteBy_perm
  rwa [List.length_map]

theorem batchEntries_default (cfg : Config) (b : List ItemWorld) :
    batchEntries cfg b (List.range b.length) =
      b.map (fun w => (processRepository cfg w).entry) := by
  rw [batchEntries, show b.length = (b.map (fun w => (processRepository cfg w).entry)).length
    from (List.length_map _ _).symm, permuteBy_default]

/-! ### The batch loop: aggregate facts -/

theorem runChunks_perm (cfg : Config) :
    ∀ (bs : List (List ItemWorld)) (orders : List (List Nat)),
      ValidOrders orders bs →
      List.Perm (runChunks cfg bs orders).2
        (bs.flatten.map (fun w => (processRepository cfg w).entry)) := by
  intro bs
  induction bs with
  | nil => intro orders _; simp [runChunks]
  | cons b bs ih =>
    intro orders hord
    cases orders with
    | nil =>
      simp only [runChunks, List.headD_nil, List.tail_nil]
      rw [batchEntries_default]
      simp only [List.flatten_cons, List.map_append]
      exact List.Perm.append (List.Perm.refl _)
        (ih [] (by intro p hp; simp at hp))
    | cons o os =>
      simp only [runChunks, List.headD_cons, List.tail_cons]
      have ho : List.Perm o (List.range b.length) :=
        hord (o, b) (by simp [List.zip_cons_cons])
      simp only [List.flatten_cons, List.map_append]
      exact List.Perm.append (batchEntries_perm cfg b o ho)
        (ih os (fun p hp => hord p (by simp [List.zip_cons_cons, hp])))

theorem runChunks_default (cfg : Config) :
    ∀ bs : List (List ItemWorld),
      (runChunks cfg bs []).2 =
        bs.flatten.map (fun w => (processRepository cfg w).entry) := by
  intro bs
  induction bs with
  | nil => simp [runChunks]
  | cons b bs ih =>
    simp only [runChunks, List.headD_nil, List.tail_nil, List.flatten_cons,
      List.map_append]
    rw [batchEntries_default, ih]

theorem runChunks_count (cfg : Config) :
    ∀ (bs : List (List ItemWorld)) (orders : List (List Nat)),
      (runChunks cfg bs orders).1 =
        ((bs.flatten.map (fun w => (processRepository cfg w).ok)).filter
          (fun r => r)).length := by
  intro bs
  induction bs with
  | nil => intro orders; simp [runChunks]
  | cons b bs ih =>
    intro orders
    simp only [runChunks, List.flatten_cons, List.map_append, List.filter_append,
      List.length_append, batchSuccessCount]
    rw [ih orders.tail]

/-! ### Per-item shape facts -/

theorem simulateRemovingChecks_ok (psd : ProtectionSettings) (cs : List String) :
    ∃ r, simulateRemovingChecks (Except.ok (some psd)) (some cs) = Except.ok r := by
  simp only [simulateRemovingChecks]
  split
  · exact ⟨_, rfl⟩
  · split
    · exact ⟨_, rfl⟩
    · split
      · exact ⟨_, rfl⟩
      · exact ⟨_, rfl⟩

/-- `processRepository` returns `true` exactly when the row it pushed is not
an `error` row. -/
theorem procOk_eq (cfg : Config) (w : ItemWorld) :
    (processRepository cfg w).ok =
      !((processRepository cfg w).entry.status == ItemStatus.error) := by
  simp only [processRepository, withExponentialBackoffRun_const]
  cases hbp : getBranchProtectionM w.bpApi with
  | error e => simp [errorEntry]
  | ok opt =>
    cases opt with
    | none => simp
    | some psd =>
      by_cases hdry : cfg.dryRun
      · simp only [hdry, if_true]
        cases hsim : simulateRemovingChecks (Except.ok (some psd))
            cfg.customChecks with
        | error e => simp [errorEntry]
        | ok r => simp
      · simp only [hdry, if_false]
        cases happ : removeChecksFromBranchProtectionRun w.bpApi w.updateApi
            cfg.customChecks with
        | error e => simp [errorEntry]
        | ok res => simp

/-- Every row pushed for an item carries that item's repository name. -/
theorem procRepo_name (cfg : Config) (w : ItemWorld) :
    (processRepository cfg w).entry.repository = w.repo.name := by
  simp only [processRepository, withExponentialBackoffRun_const]
  cases hbp : getBranchProtectionM w.bpApi with
  | error e => simp [errorEntry]
  | ok opt =>
    cases opt with
    | none => simp
    | some psd =>
      by_cases hdry : cfg.dryRun
      · simp only [hdry, if_true]
        cases hsim : simulateRemovingChecks (Except.ok (some psd))
            cfg.customChecks with
        | error e => simp [errorEntry]
        | ok r => simp
      · simp only [hdry, if_false]
        cases happ : removeChecksFromBranchProtectionRun w.bpApi w.updateApi
            cfg.customChecks with
        | error e => simp [errorEntry]
        | ok res => simp

/-- The four row statuses tally to the number of rows. -/
theorem countStatus_partition (entries : List ReportEntry) :
    countStatus ItemStatus.skipped entries + countStatus ItemStatus.simulated entries
      + countStatus ItemStatus.updated entries + countStatus ItemStatus.error entries
      = entries.length := by
  induction entries with
  | nil => rfl
  | cons e t ih =>
    simp only [countStatus, List.countP_cons, List.length_cons] at ih ⊢
    cases he : e.status <;> simp [he] <;> omega

/-! ### Claim C1 -/

/-- C1 counterexample: one skipped repository. `processRepository` returns
`true` for a skipped item, so `summary.repositoriesUpdated = 1` while
`repositoriesSkipped = 1` too (and the summary has no simulated field, whose
count here is 0): the claimed sum `updated + simulated + skipped + errored`
is 2, but the run had N = 1 item and 1 detail row — the claimed equality is
false on the code. -/
theorem C1_counterexample :
    (buildReport cfgApply [] [skipWorldA]).summary.repositoriesUpdated
        + countStatus ItemStatus.simulated (buildReport cfgApply [] [skipWorldA]).details
        + (buildReport cfgApply [] [skipWorldA]).summary.repositoriesSkipped
        + (buildReport cfgApply [] [skipWorldA]).summary.repositoriesWithErrors = 2 ∧
    (buildReport cfgApply [] [skipWorldA]).summary.totalRepositories = 1 ∧
    (buildReport cfgApply [] [skipWorldA]).details.length = 1 ∧
    ¬ (2 = 1) := by
  refine ⟨by decide, by decide, by decide, by omega⟩

theorem updateRun_updated_eq (cfg : Config) (orders : List (List Nat))
    (worlds : List ItemWorld)
    (hord : ValidOrders orders (chunks cfg.maxConcurrency worlds)) :
    (updateBranchProtectionRun cfg orders worlds).1 =
      (updateBranchProtectionRun cfg orders worlds).2.countP
        (fun e => !(e.status == ItemStatus.error)) := by
  have hperm := runChunks_perm cfg (chunks cfg.maxConcurrency worlds) orders hord
  have hcnt := runChunks_count cfg (chunks cfg.maxConcurrency worlds) orders
  rw [updateBranchProtectionRun, hcnt,
    List.Perm.countP_eq _ hperm, List.countP_map, ← List.countP_eq_length_filter,
    List.countP_map]
  apply List.countP_congr
  intro w _
  simp only [Function.comp]
  rw [procOk_eq cfg w]

/-- C1 (amended): every run over `N` items (with a valid completion schedule
and concurrency at least 1) yields exactly `N` detail rows, whose statuses
partition `N`: `#skipped + #simulated + #updated + #errored = N` (all zero
with empty details when `N = 0`). However the summary field
`repositoriesUpdated` equals the number of non-errored rows — it counts
skipped and simulated items too — and the summary has no simulated field, so
the claimed sum over summary fields can exceed `N`. -/
theorem C1_amended_report_invariant (cfg : Config) (orders : List (List Nat))
    (worlds : List ItemWorld) (hC : 1 ≤ cfg.maxConcurrency)
    (hord : ValidOrders orders (chunks cfg.maxConcurrency worlds)) :
    (buildReport cfg orders worlds).details.length = worlds.length ∧
    countStatus ItemStatus.skipped (buildReport cfg orders worlds).details
      + countStatus ItemStatus.simulated (buildReport cfg orders worlds).details
      + countStatus ItemStatus.updated (buildReport cfg orders worlds).details
      + countStatus ItemStatus.error (buildReport cfg orders worlds).details
      = worlds.length ∧
    (buildReport cfg orders worlds).summary.repositoriesUpdated =
      (buildReport cfg orders worlds).details.countP
        (fun e => !(e.status == ItemStatus.error)) ∧
    (buildReport cfg orders worlds).summary.totalRepositories = worlds.length ∧
    (worlds = [] → (buildReport cfg orders worlds).details = []) := by
  have hperm := runChunks_perm cfg (chunks cfg.maxConcurrency worlds) orders hord
  have hjoin := chunks_join cfg.maxConcurrency hC worlds.length worlds (le_refl _)
  rw [hjoin] at hperm
  have hlen : (buildReport cfg orders worlds).details.length = worlds.length := by
    simp only [buildReport, updateBranchProtectionRun]
    rw [hperm.length_eq, List.length_map]
  refine ⟨hlen, ?_, ?_, rfl, ?_⟩
  · rw [countStatus_partition, hlen]
  · simp only [buildReport]
    exact updateRun_updated_eq cfg orders worlds hord
  · intro hw
    subst hw
    simp [buildReport, updateBranchProtectionRun, chunks_nil, runChunks]

theorem C1_amended_report_invariant_witness :
    (buildReport cfgApply2 [[1, 0]] [skipWorldA, skipWorldB]).details.length = 2 ∧
    countStatus ItemStatus.skipped
        (buildReport cfgApply2 [[1, 0]] [skipWorldA, skipWorldB]).details
      + countStatus ItemStatus.simulated
        (buildReport cfgApply2 [[1, 0]] [skipWorldA, skipWorldB]).details
      + countStatus ItemStatus.updated
        (buildReport cfgApply2 [[1, 0]] [skipWorldA, skipWorldB]).details
      + countStatus ItemStatus.error
        (buildReport cfgApply2 [[1, 0]] [skipWorldA, skipWorldB]).details = 2 := by
  have h := C1_amended_report_invariant cfgApply2 [[1, 0]] [skipWorldA, skipWorldB]
    (by decide) (by decide)
  exact ⟨by simpa using h.1, by simpa using h.2.1⟩

/-! ### Claim C3 -/

/-- C3 counterexample: two skipped repositories in one batch of two, with the
second item completing first. Its row is pushed first, so `details[0]` names
`repo-b` while `items[0]` is `repo-a`: order is not preserved for every
completion order. -/
theorem C3_counterexample :
    ValidOrders [[1, 0]] (chunks 2 [skipWorldA, skipWorldB]) ∧
    ((updateBranchProtectionRun cfgApply2 [[1, 0]] [skipWorldA, skipWorldB]).2[0]?).map
        (fun e => e.repository) = some "repo-b" ∧
    ([skipWorldA, skipWorldB][0]?).map (fun w => w.repo.name) = some "repo-a" ∧
    ¬ ((some "repo-b" : Option String) = some "repo-a") := by
  refine ⟨by decide, by decide, by decide, by decide⟩

/-- C3 (amended): the detail rows are always a batchwise permutation — by
completion order — of the per-item rows, so every item is reported exactly
once; and when every batch completes in input order (the default schedule),
`details[i]` is exactly item `i`'s row, carrying `items[i].name`. Order
preservation holds for the input-order schedule, not for every completion
order. -/
theorem C3_amended_order (cfg : Config) (orders : List (List Nat))
    (worlds : List ItemWorld) (hC : 1 ≤ cfg.maxConcurrency)
    (hord : ValidOrders orders (chunks cfg.maxConcurrency worlds)) :
    List.Perm (updateBranchProtectionRun cfg orders worlds).2
      (worlds.map (fun w => (processRepository cfg w).entry)) ∧
    (updateBranchProtectionRun cfg [] worlds).2 =
      worlds.map (fun w => (processRepository cfg w).entry) ∧
    ∀ i : Nat,
      ((updateBranchProtectionRun cfg [] worlds).2[i]?).map (fun e => e.repository) =
        (worlds[i]?).map (fun w => w.repo.name) := by
  have hjoin := chunks_join cfg.maxConcurrency hC worlds.length worlds (le_refl _)
  have hdef : (updateBranchProtectionRun cfg [] worlds).2 =
      worlds.map (fun w => (processRepository cfg w).entry) := by
    rw [updateBranchProtectionRun, runChunks_default, hjoin]
  refine ⟨?_, hdef, ?_⟩
  · have hperm := runChunks_perm cfg (chunks cfg.maxConcurrency worlds) orders hord
    rwa [hjoin] at hperm
  · intro i
    rw [hdef, List.getElem?_map]
    cases hi : worlds[i]? with
    | none => rfl
    | some w => simp [procRepo_name cfg w]

theorem C3_amended_order_witness :
    (updateBranchProtectionRun cfgApply2 [] [skipWorldA, skipWorldB]).2 =
      [skipWorldA, skipWorldB].map (fun w => (processRepository cfgApply2 w).entry) ∧
    ((updateBranchProtectionRun cfgApply2 [] [skipWorldA, skipWorldB]).2[0]?).map
        (fun e => e.repository) = some "repo-a" := by
  have h := C3_amended_order cfgApply2 [] [skipWorldA, skipWorldB]
    (by decide) (by intro p hp; simp at hp)
  refine ⟨h.2.1, ?_⟩
  rw [h.2.2 0]
  decide

/-! ### Claim C5 -/

/-- C5: for every input of length `N` and concurrency `C ≥ 1`, the batch loop
runs exactly the `ceil(N/C)` contiguous chunks of size `C` (last possibly
smaller), fully settling each batch before the next launches — the trace is
the strict alternation batch, delay, batch, ..., batch — with the inter-batch
delay occurring exactly between consecutive batches (never after the last),
and an empty input produces no batch and no delay. -/
theorem C5_batch_scheduler (C : Nat) (hC : 1 ≤ C) (worlds : List ItemWorld) :
    schedTrace C worlds =
      interleaveTrace ((chunks C worlds).map (fun b => b.map (fun w => w.repo.name))) ∧
    (chunks C worlds).flatten = worlds ∧
    (chunks C worlds).length = (worlds.length + C - 1) / C ∧
    (schedTrace C worlds).countP isBatchEvent = (worlds.length + C - 1) / C ∧
    (schedTrace C worlds).countP isDelayEvent = (chunks C worlds).length - 1 ∧
    (∀ b ∈ chunks C worlds, b ≠ [] ∧ b.length ≤ C) ∧
    (∀ b ∈ (chunks C worlds).dropLast, b.length = C) ∧
    (worlds = [] → schedTrace C worlds = [] ∧ chunks C worlds = []) := by
  have htr := schedTrace_eq_interleave C hC worlds.length worlds (le_refl _)
  have hlen := chunks_length C hC worlds.length worlds (le_refl _)
  refine ⟨htr, chunks_join C hC worlds.length worlds (le_refl _), hlen, ?_, ?_,
    chunks_mem_size C hC worlds.length worlds (le_refl _),
    chunks_dropLast_size C hC worlds.length worlds (le_refl _), ?_⟩
  · rw [htr, interleave_count_batch, List.length_map, hlen]
  · rw [htr, interleave_count_delay, List.length_map]
  · intro hw
    subst hw
    exact ⟨rfl, rfl⟩

theorem C5_batch_scheduler_witness :
    (chunks 2 [skipWorldA, skipWorldB, skipWorldC]).length = 2 ∧
    (schedTrace 2 [skipWorldA, skipWorldB, skipWorldC]).countP isBatchEvent = 2 ∧
    (schedTrace 2 [skipWorldA, skipWorldB, skipWorldC]).countP isDelayEvent = 1 ∧
    (chunks 2 [skipWorldA, skipWorldB, skipWorldC]).flatten =
      [skipWorldA, skipWorldB, skipWorldC] := by
  have h := C5_batch_scheduler 2 (by omega) [skipWorldA, skipWorldB, skipWorldC]
  refine ⟨by simpa using h.2.2.1, by simpa using h.2.2.2.1, ?_, h.2.1⟩
  rw [h.2.2.2.2.1, h.2.2.1]
  decide

/-! ### Claim C6 -/

/-- C6 counterexample: in the default configuration (no `--checks` option)
`CUSTOM_CHECKS || null` passes `null` to `simulateRemovingChecks`, whose
destructuring default `checksToRemove = []` only replaces `undefined`; on a
dry-run item whose protection has a non-empty check list,
`checksToRemove.length` therefore throws a TypeError and the item is pushed
with status `error`, not `simulated` — refuting the claim that every item
with existing protection is reported `simulated`. -/
theorem C6_counterexample :
    cfgDry.dryRun = true ∧ cfgDry.customChecks = none ∧
    (processRepository cfgDry protWorld).entry.status = ItemStatus.error ∧
    (processRepository cfgDry protWorld).entry.error =
      some "Cannot read properties of null (reading 'length')" ∧
    ¬ (ItemStatus.error = ItemStatus.simulated) := by
  refine ⟨rfl, rfl, by decide, by decide, by decide⟩

/-- C6 (amended): in dry-run mode no mutation-applying call is ever made for
any work item — `removeChecksFromBranchProtection` and the update API are
never reached — and an item whose remote protection state exists is reported
`simulated` whenever the removal list is a real array (`--checks` given, so
`CUSTOM_CHECKS || null` is the array); in the default `null` configuration a
non-empty required check list instead throws a TypeError at
`checksToRemove.length` and the item is reported `error`. -/
theorem C6_amended_dry_run (cfg : Config) (w : ItemWorld)
    (hdry : cfg.dryRun = true) :
    (processRepository cfg w).applyCalled = false ∧
    (∀ psd ctr, w.bpApi = Except.ok psd → cfg.customChecks = some ctr →
      (processRepository cfg w).entry.status = ItemStatus.simulated) ∧
    (∀ psd sc checks, w.bpApi = Except.ok psd → cfg.customChecks = none →
      psd.required_status_checks = some sc → sc.checks = some checks →
      checks ≠ [] →
      (processRepository cfg w).entry.status = ItemStatus.error) := by
  refine ⟨?_, ?_, ?_⟩
  · simp only [processRepository, withExponentialBackoffRun_const]
    cases hbp : getBranchProtectionM w.bpApi with
    | error e => simp
    | ok opt =>
      cases opt with
      | none => simp
      | some psd =>
        simp only [hdry, if_true]
        cases hsim : simulateRemovingChecks (Except.ok (some psd))
            cfg.customChecks with
        | error e => simp
        | ok r => simp
  · intro psd ctr hw hctr
    have hbp : getBranchProtectionM w.bpApi = Except.ok (some psd) := by
      rw [hw]
      rfl
    obtain ⟨r, hr⟩ := simulateRemovingChecks_ok psd ctr
    simp only [processRepository, withExponentialBackoffRun_const, hbp, hdry,
      if_true, hctr, hr]
  · intro psd sc checks hw hnull hrsc hch hne
    have hbp : getBranchProtectionM w.bpApi = Except.ok (some psd) := by
      rw [hw]
      rfl
    have hlen0 : checks.length ≠ 0 := by
      simpa [List.length_eq_zero] using hne
    have hbeq : (checks.length == 0) = false := by
      simpa using hlen0
    have hsim : simulateRemovingChecks (Except.ok (some psd)) cfg.customChecks =
        Except.error typeErrorNullLength := by
      rw [hnull]
      simp [simulateRemovingChecks, hrsc, hch, hbeq]
    simp [processRepository, withExponentialBackoffRun_const, hbp, hdry, hsim,
      errorEntry]

theorem C6_amended_dry_run_witness :
    cfgDryChecks.dryRun = true ∧
    (processRepository cfgDryChecks protWorld).applyCalled = false ∧
    (processRepository cfgDryChecks protWorld).entry.status =
      ItemStatus.simulated ∧
    cfgDry.dryRun = true ∧
    (processRepository cfgDry protWorld).applyCalled = false ∧
    (processRepository cfgDry protWorld).entry.status = ItemStatus.error := by
  have h := C6_amended_dry_run cfgDryChecks protWorld rfl
  have h2 := C6_amended_dry_run cfgDry protWorld rfl
  exact ⟨rfl, h.1, h.2.1 psdTwoChecks [] rfl rfl, rfl, h2.1,
    h2.2.2 psdTwoChecks { strict := none, checks := some [policyCheck, ciCheck] }
      [policyCheck, ciCheck] rfl rfl rfl rfl (by decide)⟩

/-! ### Claim C8 -/

/-- C8 counterexample: an item whose protection lookup fails with a 403
(permission denied / plan upgrade) is reported `skipped`, not `errored`:
`_getBranchProtection` swallows the 403 and returns `undefined`, and the
processor takes the no-protection path. The claimed `Errored` classification
is false on the code. -/
theorem C8_counterexample :
    permDeniedErr.status = some 403 ∧
    (processRepository cfgApply permWorld).entry.status = ItemStatus.skipped ∧
    ¬ (ItemStatus.skipped = ItemStatus.error) := by
  refine ⟨rfl, by decide, by decide⟩

/-- C8 (amended): a work item whose remote-state lookup fails with a 403 is
never retried (the lookup wrapper makes exactly one invocation, since the 403
is converted to a successful `undefined` inside `_getBranchProtection`), no
mutation is attempted, and the item is classified `skipped` with reason
`No branch protection found` — not `errored`. -/
theorem C8_amended_perm_denied_skip (cfg : Config) (w : ItemWorld) (e : ApiError)
    (hw : w.bpApi = Except.error e) (h403 : e.status = some 403) :
    (processRepository cfg w).entry.status = ItemStatus.skipped ∧
    (processRepository cfg w).entry.reason = some "No branch protection found" ∧
    (processRepository cfg w).applyCalled = false ∧
    (withExponentialBackoffRun (fun _ => getBranchProtectionM w.bpApi)
      MAX_RETRIES INITIAL_BACKOFF_DELAY 0).2.length = 1 := by
  have hbp : getBranchProtectionM w.bpApi = Except.ok none := by
    rw [hw]
    simp [getBranchProtectionM, h403]
  refine ⟨?_, ?_, ?_, ?_⟩
  · simp only [processRepository, withExponentialBackoffRun_const, hbp]
  · simp only [processRepository, withExponentialBackoffRun_const, hbp]
  · simp only [processRepository, withExponentialBackoffRun_const, hbp]
  · rw [hbp]
    simp [withExponentialBackoffRun, MAX_RETRIES, backoffAux]

theorem C8_amended_perm_denied_skip_witness :
    (processRepository cfgApply permWorld).entry.status = ItemStatus.skipped ∧
    (processRepository cfgApply permWorld).entry.reason =
      some "No branch protection found" ∧
    (processRepository cfgApply permWorld).applyCalled = false := by
  have h := C8_amended_perm_denied_skip cfgApply permWorld permDeniedErr rfl rfl
  exact ⟨h.1, h.2.1, h.2.2.1⟩

/-- C9: the spec (and the classifier contract) require the simulated outcome
to carry the explicit list of checks that would be removed. Evaluating the
code on a dry-run item whose protection has the Khulnasoft policy check plus
one other, with `customChecks` a real (empty) array so the simulation runs to
completion: the row is `simulated`, but its `changes` and `checksRemaining`
fields are `none` — `processRepository` copies `changes.removedChecks` and
`changes.remainingChecks`, properties `simulateRemovingChecks` never sets
(it returns `message`/`original`/`simulated`; its `simulated` state shows the
removal was in fact computed). The `modified` flag it inspects for logging is
likewise never set. -/
theorem C9_defect_eval :
    (processRepository cfgDryChecks protWorld).entry.status = ItemStatus.simulated ∧
    (processRepository cfgDryChecks protWorld).entry.changes = none ∧
    (processRepository cfgDryChecks protWorld).entry.checksRemaining = none ∧
    simulateRemovingChecks (Except.ok (some psdTwoChecks)) (some []) =
      Except.ok { error := none, message := some "Would remove 1 of 2 checks",
                  original := some psdTwoChecks, simulated := some psdOnlyCi } := by
  refine ⟨by decide, by decide, by decide, by decide⟩

/-- C10 counterexample: on a protection state with an empty check list, every
(of the zero) required checks vacuously belongs to the removal set, yet the
simulate path returns the state unchanged — `required_status_checks` is still
the empty check-list object, not `null` — so the claim fails in the vacuous
case. -/
theorem C10_counterexample :
    (∀ c ∈ ([] : List Check), c.context ∈ defaultKhulnasoftChecks) ∧
    simulateRemovingChecks (Except.ok (some psdEmptyChecks)) (some []) =
      Except.ok { error := none, message := some "No status checks found to remove",
                  original := some psdEmptyChecks, simulated := some psdEmptyChecks } ∧
    psdEmptyChecks.required_status_checks = some { strict := none, checks := some [] } ∧
    ¬ (psdEmptyChecks.required_status_checks = none) := by
  refine ⟨by simp, by decide, by decide, by decide⟩

/-- C10 (amended): for every protection state with at least one required
status check, all of which belong to the effective removal set (the caller's
list, or the default Khulnasoft POLICY and INSIGHTS checks when that list is
empty), the simulate path, the apply path's update payload, and
`removeKhulnasoftChecks` all produce `required_status_checks = null` — the
requirement is removed entirely, never an empty check list. -/
theorem C10_amended_full_removal_null (psd : ProtectionSettings)
    (sc : StatusChecks) (checks : List Check) (custom : List String)
    (hrsc : psd.required_status_checks = some sc) (hch : sc.checks = some checks)
    (hne : checks ≠ [])
    (hall : ∀ c ∈ checks,
      c.context ∈ (if custom.length != 0 then custom else defaultKhulnasoftChecks)) :
    (∀ r, simulateRemovingChecks (Except.ok (some psd)) (some custom) = Except.ok r →
      r.simulated = some { psd with required_status_checks := none }) ∧
    removeChecksPayload psd custom = none ∧
    ((∀ c ∈ checks, c.context ∈ defaultKhulnasoftChecks) →
      removeKhulnasoftChecks psd = none) := by
  have hlen0 : checks.length ≠ 0 := by
    simpa [List.length_eq_zero] using hne
  have hbeq : (checks.length == 0) = false := by
    simpa using hlen0
  have hfilter : checks.filter
      (fun c => !((if custom.length != 0 then custom
        else defaultKhulnasoftChecks).contains c.context)) = [] := by
    rw [List.filter_eq_nil_iff]
    intro c hc
    have hmem := hall c hc
    have hcont : ((if custom.length != 0 then custom
        else defaultKhulnasoftChecks).contains c.context) = true := by
      simpa using hmem
    simp only [hcont]
    decide
  refine ⟨?_, ?_, ?_⟩
  · have hsim : simulateRemovingChecks (Except.ok (some psd)) (some custom) =
        Except.ok { error := none,
                    message := some ("Would remove " ++ toString checks.length
                      ++ " of " ++ toString checks.length ++ " checks"),
                    original := some psd,
                    simulated := some { psd with required_status_checks := none } } := by
      simp only [simulateRemovingChecks, hrsc, hch, hbeq, hfilter]
      simp
    intro r hr
    rw [hsim] at hr
    rw [← Except.ok.inj hr]
  · have hpos : 0 < checks.length := Nat.pos_of_ne_zero hlen0
    simp only [removeChecksPayload, hrsc, hch]
    rw [if_pos hpos]
    simp only [hfilter]
    simp
  · intro hallK
    have hfilterK : checks.filter
        (fun c => !(defaultKhulnasoftChecks.contains c.context)) = [] := by
      rw [List.filter_eq_nil_iff]
      intro c hc
      have hmem := hallK c hc
      have hcont : (defaultKhulnasoftChecks.contains c.context) = true := by
        simpa using hmem
      simp only [hcont]
      decide
    simp only [removeKhulnasoftChecks, hrsc, hch, hfilterK]
    simp

theorem C10_amended_full_removal_null_witness :
    removeChecksPayload psdOnlyPolicy [] = none ∧
    removeKhulnasoftChecks psdOnlyPolicy = none := by
  have h := C10_amended_full_removal_null psdOnlyPolicy
    { strict := none, checks := some [policyCheck] } [policyCheck] []
    rfl rfl (by decide) (by decide)
  exact ⟨h.2.1, h.2.2 (by decide)⟩
